import Mathlib

/-!
# Verification of the sql-builder data-ingestion and type-inference core

This file gives a shallow embedding of the algorithmic core of
`sqlbuilder.py` (the `DataCache` loading/sampling/chunking logic, the
`OptimizedTypeInferrer`, the JSON flattener, and the insert-value
formatter of `SQLTableBuilder`), and proves or refutes the specified
properties about it.

Python integers are modelled as `Nat`/`Int`.  Python `float` values that
arise in the code (they arise only from true division of non-negative
numbers) are modelled exactly: a binary64 value is a pair
(significand, exponent) and true division is implemented as
round-to-nearest-even of the exact rational quotient to 53 significant
bits, which is precisely the IEEE-754 semantics used by CPython for
mid-range magnitudes (no overflow/underflow occurs for the quantities
involved here).
-/

namespace SqlBuilder

/-! ## An exact model of CPython float division

All floats in the modelled code are produced by `a / b` on non-negative
numbers, so we only need non-negative dyadic values.  `FVal m e`
represents the real number `m * 2 ^ e`. -/

/-- A non-negative binary64 value: significand times a power of two. -/
structure FVal where
  m : Nat
  e : Int
  deriving Repr, DecidableEq

/-- The exact rational value of a float. -/
def FVal.val (x : FVal) : ℚ := (x.m : ℚ) * (2 : ℚ) ^ x.e

/-- Round a non-negative rational `a / b` to the nearest integer, ties to
even (the IEEE-754 default rounding applied to the scaled significand). -/
def rne (a b : Nat) : Nat :=
  if 2 * (a % b) < b then a / b
  else if b < 2 * (a % b) then a / b + 1
  else if (a / b) % 2 = 0 then a / b else a / b + 1

/-- Fuel-driven binary logarithm (structural recursion, so that concrete
instances reduce inside the kernel). -/
def log2Aux : Nat → Nat → Nat
  | 0, _ => 0
  | fuel + 1, n => if n ≤ 1 then 0 else log2Aux fuel (n / 2) + 1

/-- Value `natLog2 n` is `⌊log₂ n⌋` for `n ≥ 1`. -/
def natLog2 (n : Nat) : Nat := log2Aux n n

/-- Value `floorLogDiv a b` is the integer `e` with `2 ^ e ≤ a / b < 2 ^ (e+1)`,
for positive `a b`. -/
def floorLogDiv (a b : Nat) : Int :=
  if b * 2 ^ natLog2 a ≤ a * 2 ^ natLog2 b then (natLog2 a : Int) - natLog2 b
  else (natLog2 a : Int) - natLog2 b - 1

/-- Correctly rounded binary64 quotient of two naturals
(round to nearest, ties to even, 53-bit significand).  This is the exact
result of CPython's `a / b` on non-negative ints in the normal range.
`0 / b` is `0`. -/
def froundDiv (a b : Nat) : FVal :=
  if a = 0 then ⟨0, 0⟩
  else if 0 ≤ 52 - floorLogDiv a b then
    ⟨rne (a * 2 ^ (52 - floorLogDiv a b).toNat) b, floorLogDiv a b - 52⟩
  else
    ⟨rne a (b * 2 ^ (floorLogDiv a b - 52).toNat), floorLogDiv a b - 52⟩

/-- CPython's conversion of a non-negative int to float (exact for
`n < 2 ^ 53`, otherwise correctly rounded). -/
def froundNat (n : Nat) : FVal := froundDiv n 1

/-- Correctly rounded binary64 quotient of two model floats
(CPython `x / y` on floats). -/
def fdivF (x y : FVal) : FVal :=
  if 0 ≤ x.e - y.e then froundDiv (x.m * 2 ^ (x.e - y.e).toNat) y.m
  else froundDiv x.m (y.m * 2 ^ (y.e - x.e).toNat)

/-- CPython `int(x)` for a non-negative float: truncation toward zero,
i.e. the floor. -/
def pyIntFloor (x : FVal) : Nat :=
  if 0 ≤ x.e then x.m * 2 ^ x.e.toNat else x.m / 2 ^ (-x.e).toNat

/-! ## `DataCache._load_csv_file`: row-count estimation

The estimator only looks at the byte lengths of the lines, so a delimited
file is abstracted here as the list of its line byte-lengths.  Mirrors:

```
sample_lines = (first at most 100 lines)
file_size    = (total bytes)
avg_line_size = file_size / len(sample_lines) if sample_lines else 100
estimated_rows = int(file_size / avg_line_size)
```

`file_size / len(sample_lines)` is CPython int/int true division
(one correctly rounded float); `file_size / avg_line_size` is int/float
division, which first converts `file_size` to float. -/

/-- Estimated row count of a delimited file, given its line byte-lengths. -/
def estimatedRows (lineSizes : List Nat) : Nat :=
  if (lineSizes.take 100).length = 0 then
    pyIntFloor (froundDiv lineSizes.sum 100)
  else
    pyIntFloor (fdivF (froundNat lineSizes.sum)
      (froundDiv lineSizes.sum (lineSizes.take 100).length))

/-- Mirrors how `DataCache._load_csv_file` classifies a file as large when the
estimate strictly exceeds the threshold (default 50000). -/
def isLargeCsv (lineSizes : List Nat) (largeFileThreshold : Nat) : Bool :=
  largeFileThreshold < estimatedRows lineSizes

/-- The unit roundoff of binary64. -/
def u53 : ℚ := 1 / 2 ^ 53

/-! ## JSON values and `DataCache._flatten_object` / `_process_json_data` -/

/-- A parsed JSON document (as produced by `json.load`).  Numeric literals
in the verified scenarios are integers, so numbers are modelled as `Int`. -/
inductive JValue where
  | jnull
  | jbool (b : Bool)
  | jint (n : Int)
  | jstr (s : String)
  | jarr (items : List JValue)
  | jobj (fields : List (String × JValue))

/-- Mirrors `isinstance(item, dict)`. -/
def JValue.isObj : JValue → Bool
  | .jobj _ => true
  | _ => false

mutual
/-- Python `str(v)` on a parsed JSON value. -/
def pyStr : JValue → String
  | .jnull => "None"
  | .jbool true => "True"
  | .jbool false => "False"
  | .jint n => toString n
  | .jstr s => s
  | .jarr items => "[" ++ String.intercalate ", " (pyReprList items) ++ "]"
  | .jobj fields => "\x7b" ++ String.intercalate ", " (pyReprFields fields) ++ "\x7d"

/-- Python `repr(v)`, for elements shown inside containers.  String
escaping inside `repr` is simplified to plain quoting; no verified
scenario renders a container. -/
def pyRepr : JValue → String
  | .jstr s => String.mk ['\''] ++ s ++ String.mk ['\'']
  | v => pyStr v

def pyReprList : List JValue → List String
  | [] => []
  | v :: rest => pyRepr v :: pyReprList rest

def pyReprFields : List (String × JValue) → List String
  | [] => []
  | (k, v) :: rest => (pyRepr (.jstr k) ++ ": " ++ pyRepr v) :: pyReprFields rest
end

/-- Python `dict(items)`: first occurrence of a key fixes its position,
the last occurrence fixes its value. -/
def dictFromList (items : List (String × JValue)) : List (String × JValue) :=
  items.foldl
    (fun acc kv =>
      if acc.any (fun p => p.1 == kv.1) then
        acc.map (fun p => if p.1 == kv.1 then (p.1, kv.2) else p)
      else acc ++ [kv])
    []

mutual
/-- Model of `DataCache._flatten_object` (with the default separator `"."`):
flattens a JSON node to an ordered association list. -/
def flattenObject : JValue → String → List (String × JValue)
  | .jobj fields, parentKey => dictFromList (flattenFields fields parentKey)
  | v, parentKey => dictFromList [(if parentKey = "" then "value" else parentKey, v)]

/-- The loop body over a dict's items: one entry (or recursion) per field. -/
def flattenFields : List (String × JValue) → String → List (String × JValue)
  | [], _ => []
  | (key, value) :: rest, parentKey =>
    (match value with
     | .jobj fields2 =>
         flattenObject (.jobj fields2) (if parentKey = "" then key else parentKey ++ "." ++ key)
     | .jarr (first :: rest) =>
         if first.isObj then
           flattenArray (first :: rest)
             (if parentKey = "" then key else parentKey ++ "." ++ key) 0
         else
           [((if parentKey = "" then key else parentKey ++ "." ++ key),
             .jstr (String.intercalate ", " ((first :: rest).map pyStr)))]
     | .jarr [] =>
         [((if parentKey = "" then key else parentKey ++ "." ++ key),
           .jstr (String.intercalate ", " (([] : List JValue).map pyStr)))]
     | v => [((if parentKey = "" then key else parentKey ++ "." ++ key), v)])
      ++ flattenFields rest parentKey

/-- Mirrors `for i, item in enumerate(value): ... _flatten_object(item, f"key[i]")`. -/
def flattenArray : List JValue → String → Nat → List (String × JValue)
  | [], _, _ => []
  | item :: rest, newKey, i =>
      flattenObject item (newKey ++ "[" ++ toString i ++ "]")
        ++ flattenArray rest newKey (i + 1)
end

/-- Cell rendering in `_process_json_data`: `str(flattened.get(header, ''))`. -/
def cellOf (flat : List (String × JValue)) (header : String) : String :=
  match flat.lookup header with
  | some v => pyStr v
  | none => ""

/-- First-seen-order accumulation of headers:
`for key in flattened.keys(): if key not in headers: headers.append(key)`. -/
def addNewKeys (acc : List String) (keys : List String) : List String :=
  keys.foldl (fun a k => if k ∈ a then a else a ++ [k]) acc

/-- Model of `DataCache._process_json_data`: convert a JSON document to
`(headers, rows)`. -/
def processJsonData : JValue → List String × List (List String)
  | .jarr [] => ([], [])
  | .jarr (first :: rest) =>
      if ¬ first.isObj then
        (["value"], (first :: rest).map (fun item => [pyStr item]))
      else
        let items := first :: rest
        let headers := items.foldl
          (fun acc item =>
            if item.isObj then addNewKeys acc ((flattenObject item "").map Prod.fst)
            else acc) []
        (headers,
          items.filterMap (fun item =>
            if item.isObj then some (headers.map (cellOf (flattenObject item "")))
            else none))
  | .jobj fields =>
      ((flattenObject (.jobj fields) "").map Prod.fst,
        [((flattenObject (.jobj fields) "").map Prod.fst).map
          (cellOf (flattenObject (.jobj fields) ""))])
  | v => (["value"], [[pyStr v]])

/-! ## The `DataCache` state and `load_file` -/

/-- One data row: a list of string cells. -/
abbrev Row := List String

inductive FileType where
  | csv
  | json
  deriving Repr, DecidableEq

/-- The `file_info` dict (the fields the verified claims depend on). -/
structure FileInfo where
  totalRows : Nat
  estimatedRows : Nat
  isLargeFile : Bool
  deriving Repr, DecidableEq

/-- The attributes of `DataCache`.  `estimated_rows` is set by `setattr`
during loads and — unlike the other fields — is *not* reset by `clear()`,
hence kept as a separate `Option`. -/
structure Cache where
  headers : Option (List String)
  sampleRows : Option (List Row)
  allRows : Option (List Row)
  fileInfo : Option FileInfo
  isLoaded : Bool
  isLargeFile : Bool
  fileType : Option FileType
  estimatedRows? : Option Nat
  deriving Repr, DecidableEq

/-- The state built by `DataCache.__init__`. -/
def emptyCache : Cache :=
  { headers := none, sampleRows := none, allRows := none, fileInfo := none,
    isLoaded := false, isLargeFile := false, fileType := none, estimatedRows? := none }

/-- Model of `DataCache.clear()`. -/
def clearCache (c : Cache) : Cache :=
  { headers := none, sampleRows := none, allRows := none, fileInfo := none,
    isLoaded := false, isLargeFile := false, fileType := none,
    estimatedRows? := c.estimatedRows? }

/-- Errors surfaced by a load. -/
inductive LoadError where
  | ioError
  | formatError
  deriving Repr, DecidableEq

/-- Outcome of parsing a delimited file's records. -/
inductive CsvParse where
  | headerError
  | rowsError (headers : List String) (readSoFar : List Row)
  | ok (headers : List String) (rows : List Row)
  deriving Repr, DecidableEq

/-- A delimited source file: either unreadable, or its line byte-lengths
together with the parse outcome of its records. -/
inductive CsvSource where
  | ioError
  | content (lineSizes : List Nat) (parse : CsvParse)
  deriving Repr, DecidableEq

/-- A JSON source file. -/
inductive JsonSource where
  | ioError
  | parseError
  | ok (j : JValue)

inductive Source where
  | csv (s : CsvSource)
  | json (s : JsonSource)

/-- Mirrors `max(100, int(nrows * sample_percentage / 100))` — the sample size of
the small strategy (and of the JSON loader). -/
def sampleSizeSmall (nrows pct : Nat) : Nat :=
  max 100 (pyIntFloor (froundDiv (nrows * pct) 100))

/-- Mirrors `max(1000, int(chunk_size * sample_percentage / 100))` with
`chunk_size = 10000` — the sample target of the large strategy. -/
def sampleTargetLarge (pct : Nat) : Nat :=
  max 1000 (pyIntFloor (froundDiv (10000 * pct) 100))

/-- Model of `DataCache._load_small_csv_file`: assignments happen in source order,
so a failure while reading the data rows leaves `headers` set but
`all_rows`/`sample_rows` untouched (the row list is a local until the
read completes). -/
def loadSmallCsv (c : Cache) (parse : CsvParse) (pct : Nat) : Cache × Option LoadError :=
  match parse with
  | .headerError => (c, some .formatError)
  | .rowsError h _ => ({ c with headers := some h }, some .formatError)
  | .ok h rows =>
      ({ c with
          headers := some h,
          allRows := some rows,
          sampleRows := some (rows.take (sampleSizeSmall rows.length pct)) }, none)

/-- Model of `DataCache._load_large_csv_file`: `sample_rows` is appended to in
place, so a failure mid-sample leaves the partial sample in the cache;
on success at most `sample_target` rows are read and `all_rows` is
explicitly reset to `None`. -/
def loadLargeCsv (c : Cache) (parse : CsvParse) (pct : Nat) : Cache × Option LoadError :=
  match parse with
  | .headerError => (c, some .formatError)
  | .rowsError h readSoFar =>
      ({ c with
          headers := some h,
          sampleRows := some (readSoFar.take (sampleTargetLarge pct)) },
        some .formatError)
  | .ok h rows =>
      ({ c with
          headers := some h,
          sampleRows := some (rows.take (sampleTargetLarge pct)),
          allRows := none }, none)

/-- Model of `DataCache._load_csv_file`: estimate, classify, then dispatch. -/
def loadCsvFile (c : Cache) (lineSizes : List Nat) (parse : CsvParse)
    (pct threshold : Nat) : Cache × Option LoadError :=
  let c1 := { c with
    isLargeFile := isLargeCsv lineSizes threshold,
    estimatedRows? := some (estimatedRows lineSizes) }
  if isLargeCsv lineSizes threshold then loadLargeCsv c1 parse pct
  else loadSmallCsv c1 parse pct

/-- Model of `DataCache._load_json_file` (all exceptions are re-raised as
`ValueError`, i.e. format errors). -/
def loadJson (c : Cache) (src : JsonSource) (pct threshold : Nat) :
    Cache × Option LoadError :=
  match src with
  | .ioError => (c, some .formatError)
  | .parseError => (c, some .formatError)
  | .ok j =>
      ({ c with
          headers := some (processJsonData j).1,
          allRows := some (processJsonData j).2,
          estimatedRows? := some (processJsonData j).2.length,
          isLargeFile := decide ((processJsonData j).2.length > threshold),
          sampleRows := some ((processJsonData j).2.take
            (sampleSizeSmall (processJsonData j).2.length pct)) }, none)

/-- The tail of `DataCache.load_file`: build `file_info` and set
`is_loaded` (Python truthiness: an empty `all_rows` list falls back to
the estimate). -/
def finishLoad (c : Cache) : Cache :=
  { c with
    fileInfo := some
      { totalRows := if c.allRows.getD [] ≠ [] then (c.allRows.getD []).length
                     else c.estimatedRows?.getD 0,
        estimatedRows := c.estimatedRows?.getD
          (if c.allRows.getD [] ≠ [] then (c.allRows.getD []).length else 0),
        isLargeFile := c.isLargeFile },
    isLoaded := true }

/-- Model of `DataCache.load_file`: clear, set the file type, dispatch to the
format loader, then publish `file_info`/`is_loaded` — a raised error
skips the publishing step. -/
def loadFile (c : Cache) (src : Source) (pct threshold : Nat) :
    Cache × Option LoadError :=
  match src with
  | .json js =>
      match loadJson { (clearCache c) with fileType := some .json } js pct threshold with
      | (c2, some e) => (c2, some e)
      | (c2, none) => (finishLoad c2, none)
  | .csv .ioError => ({ (clearCache c) with fileType := some .csv }, some .ioError)
  | .csv (.content ls parse) =>
      match loadCsvFile { (clearCache c) with fileType := some .csv } ls parse pct threshold with
      | (c2, some e) => (c2, some e)
      | (c2, none) => (finishLoad c2, none)

/-! ## `DataCache.get_chunk_generator` -/

/-- Chunking by slices: `for i in range(0, len(rows), n): yield rows[i:i+n]`. -/
def chunkList (n : Nat) (l : List Row) : List (List Row) :=
  if h : n = 0 ∨ l = [] then [] else l.take n :: chunkList n (l.drop n)
termination_by l.length
decreasing_by
  simp only [List.length_drop]
  have hn : n ≠ 0 := fun hh => h (Or.inl hh)
  have hl : l ≠ [] := fun hh => h (Or.inr hh)
  have : 0 < l.length := List.length_pos.mpr hl
  omega

/-- The accumulate-and-flush loop of the large-file branch:
`chunk.append(row); if len(chunk) >= n: yield chunk; chunk = []`,
with a final `if chunk: yield chunk`. -/
def chunkLoop (n : Nat) : List Row → List Row → List (List Row)
  | [], acc => if acc = [] then [] else [acc]
  | r :: rest, acc =>
      if n ≤ acc.length + 1 then (acc ++ [r]) :: chunkLoop n rest []
      else chunkLoop n rest (acc ++ [r])

/-- The state `get_chunk_generator` reads: the cache fields it consults
plus the data rows currently on disk (the file body minus the header). -/
structure ChunkSource where
  fileType : FileType
  isLargeFile : Bool
  allRows : Option (List Row)
  fileDataRows : List Row
  deriving Repr, DecidableEq

/-- Model of `DataCache.get_chunk_generator` (Python truthiness on `all_rows`:
`None` and `[]` both fail the test). -/
def getChunkGenerator (src : ChunkSource) (chunkSize : Nat) : List (List Row) :=
  if src.fileType = .json then
    if src.allRows.getD [] ≠ [] then chunkList chunkSize (src.allRows.getD []) else []
  else if src.isLargeFile = false ∧ src.allRows.getD [] ≠ [] then
    chunkList chunkSize (src.allRows.getD [])
  else
    chunkLoop chunkSize src.fileDataRows []

/-- A `ChunkSource` reachable from a completed load: a JSON dataset keeps
`all_rows`; a small delimited dataset's `all_rows` is exactly the file's
data rows; a large delimited dataset has no `all_rows`. -/
def ChunkSource.wf (src : ChunkSource) : Prop :=
  match src.fileType with
  | .json => ∃ rs, src.allRows = some rs
  | .csv => if src.isLargeFile then src.allRows = none
            else src.allRows = some src.fileDataRows

/-- The dataset's full row sequence. -/
def datasetRows (src : ChunkSource) : List Row :=
  match src.fileType, src.allRows with
  | .json, some rs => rs
  | .json, none => []
  | .csv, _ => src.fileDataRows

/-! ## String helpers

Python's `str.strip` / `str.lower` / `str.upper` and substring testing,
modelled character-wise (so they reduce inside the kernel; the strings
exercised here are ASCII, where these agree with Python). -/

/-- Python `s.strip()`. -/
def pyStrip (s : String) : String :=
  String.mk (((s.data.dropWhile Char.isWhitespace).reverse.dropWhile
    Char.isWhitespace).reverse)

/-- Python `s.lower()`. -/
def pyLower (s : String) : String := String.mk (s.data.map Char.toLower)

/-- Python `s.upper()`. -/
def pyUpper (s : String) : String := String.mk (s.data.map Char.toUpper)

/-- Python `needle in hay` on strings. -/
def containsSub (hay needle : List Char) : Bool :=
  if needle.isPrefixOf hay then true
  else
    match hay with
    | [] => false
    | _ :: t => containsSub t needle

/-- Python `hay.startswith(pre)`. -/
def pyStartsWith (s pre : String) : Bool := pre.data.isPrefixOf s.data

/-! ## `OptimizedTypeInferrer` -/

/-- Regex `^-?\d+$`. -/
def isIntPattern (s : String) : Bool :=
  match s.data with
  | '-' :: rest => !rest.isEmpty && rest.all Char.isDigit
  | l => !l.isEmpty && l.all Char.isDigit

/-- Regex `^-?\d*\.\d+$` (the digit run before `.` is maximal because `.` is
not a digit, so `dropWhile` finds the unique split). -/
def isFloatPattern (s : String) : Bool :=
  match (match s.data with | '-' :: rest => rest | l => l).dropWhile Char.isDigit with
  | '.' :: rest => !rest.isEmpty && rest.all Char.isDigit
  | _ => false

/-- Regex `^\d{4}-\d{2}-\d{2}$` (YYYY-MM-DD). -/
def isDatePattern1 (s : String) : Bool :=
  match s.data with
  | [a, b, c, d, '-', e, f, '-', g, h] => [a, b, c, d, e, f, g, h].all Char.isDigit
  | _ => false

/-- Regex `^\d{2}/\d{2}/\d{4}$` (MM/DD/YYYY). -/
def isDatePattern2 (s : String) : Bool :=
  match s.data with
  | [a, b, '/', c, d, '/', e, f, g, h] => [a, b, c, d, e, f, g, h].all Char.isDigit
  | _ => false

/-- Regex `^\d{4}-\d{2}-\d{2} \d{2}:\d{2}:\d{2}$` (datetime). -/
def isDatePattern3 (s : String) : Bool :=
  match s.data with
  | [a, b, c, d, '-', e, f, '-', g, h, ' ', i, j, ':', k, l, ':', m, n] =>
      [a, b, c, d, e, f, g, h, i, j, k, l, m, n].all Char.isDigit
  | _ => false

/-- Regex `^\d{2}-\d{2}-\d{4}$` (DD-MM-YYYY). -/
def isDatePattern4 (s : String) : Bool :=
  match s.data with
  | [a, b, '-', c, d, '-', e, f, g, h] => [a, b, c, d, e, f, g, h].all Char.isDigit
  | _ => false

/-- Mirrors `any(pattern.match(value) for pattern in self.date_patterns)`. -/
def isDatePattern (s : String) : Bool :=
  isDatePattern1 s || isDatePattern2 s || isDatePattern3 s || isDatePattern4 s

/-- The vote cast by one non-empty (already stripped) cell value: the
cascading `if`/`elif` classification, first match wins. -/
def classifyValue (v : String) : String :=
  if pyLower v == "0" || pyLower v == "1" || pyLower v == "true" || pyLower v == "false" then
    "BIT"
  else if isIntPattern v then "INT"
  else if isFloatPattern v then "FLOAT"
  else if isDatePattern v then "DATETIME"
  else "VARCHAR"

/-- Mirrors `type_votes[col_idx][k] += 1` on a `defaultdict(int)`, keeping the
dict's insertion order. -/
def bumpVote (votes : List (String × Nat)) (k : String) : List (String × Nat) :=
  if votes.any (fun p => p.1 == k) then
    votes.map (fun p => if p.1 == k then (p.1, p.2 + 1) else p)
  else votes ++ [(k, 1)]

/-- Mirrors `row + [''] * (column_count - len(row))`, truncated to
`column_count` (`padded_row[:column_count]`). -/
def padRow (row : List String) (cc : Nat) : List String :=
  (row ++ List.replicate (cc - row.length) "").take cc

/-- The per-row update of the vote tables and max lengths, walking the
padded row and the per-column state in lockstep. -/
def updateCols : List String → List (List (String × Nat)) → List Nat →
    List (List (String × Nat)) × List Nat
  | v :: vs, tv :: tvs, ml :: mls =>
      let rest := updateCols vs tvs mls
      ((if pyStrip v = "" then tv else bumpVote tv (classifyValue (pyStrip v))) :: rest.1,
        max ml (pyStrip v).length :: rest.2)
  | _, tvs, mls => (tvs, mls)

/-- Mirrors `max(votes.keys(), key=lambda k: votes[k])`: the first key attaining
the maximal count (Python's `max` keeps the earlier element on ties). -/
def firstMaxGo (bk : String) (bc : Nat) : List (String × Nat) → String
  | [] => bk
  | (k, c) :: rest => if c > bc then firstMaxGo k c rest else firstMaxGo bk bc rest

def firstMaxKey : List (String × Nat) → Option String
  | [] => none
  | (k, c) :: rest => some (firstMaxGo k c rest)

/-- Rendering of one column's final type from its votes and max length. -/
def renderType (votes : List (String × Nat)) (maxLen : Nat) : String :=
  match firstMaxKey votes with
  | none => "NVARCHAR(255)"
  | some best =>
      if best = "VARCHAR" then
        if maxLen ≤ 10 then "NVARCHAR(10)"
        else if maxLen ≤ 50 then "NVARCHAR(50)"
        else if maxLen ≤ 255 then "NVARCHAR(255)"
        else if maxLen ≤ 4000 then "NVARCHAR(" ++ toString maxLen ++ ")"
        else "NVARCHAR(MAX)"
      else best

/-- Model of `OptimizedTypeInferrer.infer_column_types` (`max_sample` defaults to
1000 in the source). -/
def inferColumnTypes (sampleRows : List (List String)) (headers : List String)
    (maxSample : Nat) : List String :=
  if sampleRows = [] then headers.map (fun _ => "NVARCHAR(255)")
  else
    ((((sampleRows.take maxSample).foldl
        (fun st row => updateCols (padRow row headers.length) st.1 st.2)
        (List.replicate headers.length [], List.replicate headers.length 0)).1.zip
      ((sampleRows.take maxSample).foldl
        (fun st row => updateCols (padRow row headers.length) st.1 st.2)
        (List.replicate headers.length [], List.replicate headers.length 0)).2).map
      (fun p => renderType p.1 p.2))

/-! ## `SQLTableBuilder.is_quoted_type` / `format_insert_values` -/

/-- A single-quote character as a string. -/
def squote : String := String.mk ['\'']

/-- Mirrors `val.replace("'", "''")` (single-character pattern, so per-character
expansion). -/
def escapeQuotes (v : String) : String :=
  String.mk ((v.data.map (fun c => if c = '\'' then [c, c] else [c])).join)

def unquotedKeywords : List String :=
  ["INT", "FLOAT", "BIT", "DECIMAL", "NUMERIC", "REAL", "SMALLINT", "TINYINT", "BIGINT"]

/-- Model of `SQLTableBuilder.is_quoted_type`. -/
def isQuotedType (sqlType : String) : Bool :=
  !(unquotedKeywords.any (fun k => pyStartsWith (pyUpper (pyStrip sqlType)) k))

/-- The per-column branch of `format_insert_values`: `none` when the
value is omitted (identity columns), otherwise the emitted SQL token. -/
def formatValue (val sqlType : String) : Option String :=
  if containsSub (pyUpper (pyStrip sqlType)).data "INT IDENTITY".data then none
  else if containsSub (pyUpper (pyStrip sqlType)).data "UNIQUEIDENTIFIER".data
      && pyStrip val == "" then
    some "NEWID()"
  else if val == "" then some "NULL"
  else if isQuotedType sqlType then some (squote ++ escapeQuotes val ++ squote)
  else some val

/-- Model of `SQLTableBuilder.format_insert_values` (Python `zip` truncates to the
shorter list). -/
def formatInsertValues (row : List String) (columnTypes : List String) : String :=
  "    (" ++ String.intercalate ", "
    ((row.zip columnTypes).filterMap (fun p => formatValue p.1 p.2)) ++ ")"

/-! ## Spec-side formulas (for refutation of claims as stated) -/

/-- C1's claimed estimator: `averageLineBytes` is the mean byte length of
the first up-to-100 lines; `floor(totalBytes / averageLineBytes)`; on an
empty sample a fallback average of 100 bytes and a minimum of one line. -/
def claimedEstimatedRows (lineSizes : List Nat) : Nat :=
  if lineSizes.take 100 = [] then max 1 (lineSizes.sum / 100)
  else
    (⌊(lineSizes.sum : ℚ) /
      (((lineSizes.take 100).sum : ℚ) / ((lineSizes.take 100).length : ℚ))⌋).toNat

/-- C4's claimed sample length: `max(100, ceil(N * pct / 100))` capped
at `N`. -/
def claimedSmallSampleLen (n pct : Nat) : Nat :=
  min n (max 100 ((n * pct + 99) / 100))

/-- C7's spec-side header order, following the spec's words: scan the
objects' (flattened) key lists in document order and append each key the
first time it is seen — "the union of keys in first-seen order across
all objects (not sorted)".  This reference pins the order completely:
for key lists `[["b"], ["a"]]` it yields `["b", "a"]`, which no sorting
implementation produces. -/
def specFirstSeenHeaders (keyLists : List (List String)) : List String :=
  keyLists.flatten.foldl (fun acc k => if k ∈ acc then acc else acc ++ [k]) []

/-! ## Accuracy of the float model

The standard relative-error bound for round-to-nearest with a 53-bit
significand: one correctly rounded division of positive inputs has
relative error at most `2 ^ (-53)`. -/

theorem log2Aux_spec : ∀ fuel n : Nat, 1 ≤ n → n ≤ fuel →
    2 ^ log2Aux fuel n ≤ n ∧ n < 2 ^ (log2Aux fuel n + 1) := by
  intro fuel
  induction fuel with
  | zero => intro n h1 h2; omega
  | succ fuel ih =>
    intro n h1 h2
    unfold log2Aux
    by_cases hn : n ≤ 1
    · have hn1 : n = 1 := by omega
      subst hn1
      simp
    · simp only [if_neg hn]
      obtain ⟨l, r⟩ := ih (n / 2) (by omega) (by omega)
      rw [pow_succ, pow_succ] at *
      omega

theorem natLog2_spec (n : Nat) (h : 1 ≤ n) :
    2 ^ natLog2 n ≤ n ∧ n < 2 ^ (natLog2 n + 1) :=
  log2Aux_spec n n h le_rfl

theorem floorLogDiv_bounds (a b : Nat) (ha : 0 < a) (hb : 0 < b) :
    (2 : ℚ) ^ floorLogDiv a b ≤ (a : ℚ) / b ∧
      (a : ℚ) / b < (2 : ℚ) ^ (floorLogDiv a b + 1) := by
  obtain ⟨pa1, pa2⟩ := natLog2_spec a ha
  obtain ⟨pb1, pb2⟩ := natLog2_spec b hb
  have hb0 : (0 : ℚ) < (b : ℚ) := by exact_mod_cast hb
  have hpow : ∀ k : Nat, (0 : ℚ) < (2 : ℚ) ^ (k : Int) := by
    intro k; positivity
  unfold floorLogDiv
  split_ifs with hc
  · constructor
    · rw [zpow_sub₀ (two_ne_zero), zpow_natCast, zpow_natCast,
        div_le_div_iff (by positivity) hb0]
      have := hc
      push_cast
      exact_mod_cast by nlinarith [hc]
    · have h1 : ((a : ℚ)) < 2 ^ (natLog2 a + 1) := by exact_mod_cast pa2
      have h2 : ((2 : ℚ)) ^ natLog2 b ≤ b := by exact_mod_cast pb1
      rw [div_lt_iff hb0]
      have : ((natLog2 a : Int) - natLog2 b + 1) = ((natLog2 a + 1 : Nat) : Int) - (natLog2 b : Int) := by
        push_cast; ring
      rw [this, zpow_sub₀ (two_ne_zero), zpow_natCast, zpow_natCast, div_mul_eq_mul_div,
        lt_div_iff (by positivity)]
      calc (a : ℚ) * 2 ^ natLog2 b ≤ (a : ℚ) * b := by
            have : (0:ℚ) ≤ (a:ℚ) := by positivity
            nlinarith [h2]
        _ < 2 ^ (natLog2 a + 1) * b := by nlinarith [h1, hb0]
  · have hc' : a * 2 ^ natLog2 b < b * 2 ^ natLog2 a := by omega
    constructor
    · have h1 : ((2 : ℚ)) ^ natLog2 a ≤ a := by exact_mod_cast pa1
      have h2 : ((b : ℚ)) < 2 ^ (natLog2 b + 1) := by exact_mod_cast pb2
      have : ((natLog2 a : Int) - natLog2 b - 1) = ((natLog2 a : Nat) : Int) - ((natLog2 b + 1 : Nat) : Int) := by
        push_cast; ring
      rw [this, zpow_sub₀ (two_ne_zero), zpow_natCast, zpow_natCast,
        div_le_div_iff (by positivity) hb0]
      have ha0 : (0:ℚ) < (a:ℚ) := by exact_mod_cast ha
      nlinarith [h1, h2, ha0]
    · have : ((natLog2 a : Int) - natLog2 b - 1 + 1) = ((natLog2 a : Nat) : Int) - (natLog2 b : Int) := by
        ring
      rw [this, zpow_sub₀ (two_ne_zero), zpow_natCast, zpow_natCast, div_lt_div_iff hb0 (by positivity)]
      exact_mod_cast by nlinarith [hc']

theorem rne_bound (A B : Nat) (hB : 0 < B) :
    |(rne A B : ℚ) - (A : ℚ) / B| ≤ 1 / 2 := by
  have hdm : B * (A / B) + A % B = A := Nat.div_add_mod A B
  have hr : A % B < B := Nat.mod_lt _ hB
  have hB0 : (0 : ℚ) < (B : ℚ) := by exact_mod_cast hB
  have hA : (A : ℚ) = (B : ℚ) * ((A / B : Nat) : ℚ) + ((A % B : Nat) : ℚ) := by
    exact_mod_cast (congrArg (fun n : Nat => (n : ℚ)) hdm).symm
  have hAq : (A : ℚ) / B = ((A / B : Nat) : ℚ) + ((A % B : Nat) : ℚ) / B := by
    rw [hA]; field_simp; ring
  have hrB0 : (0 : ℚ) ≤ ((A % B : Nat) : ℚ) / B := by positivity
  have hrB1 : ((A % B : Nat) : ℚ) / B < 1 := by
    rw [div_lt_iff hB0]
    simpa using (by exact_mod_cast hr : ((A % B : Nat) : ℚ) < (B : ℚ))
  unfold rne
  split_ifs with h1 h2 h3
  · rw [hAq, abs_le]
    have hrB : ((A % B : Nat) : ℚ) / B < 1 / 2 := by
      rw [div_lt_iff hB0]
      have : (2 : ℚ) * ((A % B : Nat) : ℚ) < (B : ℚ) := by exact_mod_cast h1
      linarith
    constructor <;> · push_cast; nlinarith [hrB, hrB0]
  · rw [hAq, abs_le]
    have hrB : (1 : ℚ) / 2 < ((A % B : Nat) : ℚ) / B := by
      rw [lt_div_iff hB0]
      have : (B : ℚ) < 2 * ((A % B : Nat) : ℚ) := by exact_mod_cast h2
      linarith
    constructor <;> · push_cast; nlinarith [hrB, hrB1]
  · rw [hAq, abs_le]
    have hrB : ((A % B : Nat) : ℚ) / B = 1 / 2 := by
      rw [div_eq_iff (ne_of_gt hB0)]
      have : (2 : ℚ) * ((A % B : Nat) : ℚ) = (B : ℚ) := by exact_mod_cast by omega
      linarith
    constructor <;> · push_cast; nlinarith [hrB]
  · rw [hAq, abs_le]
    have hrB : ((A % B : Nat) : ℚ) / B = 1 / 2 := by
      rw [div_eq_iff (ne_of_gt hB0)]
      have : (2 : ℚ) * ((A % B : Nat) : ℚ) = (B : ℚ) := by exact_mod_cast by omega
      linarith
    constructor <;> · push_cast; nlinarith [hrB]

theorem froundDiv_err (a b : Nat) (ha : 0 < a) (hb : 0 < b) :
    |(froundDiv a b).val - (a : ℚ) / b| ≤ ((a : ℚ) / b) * u53 := by
  obtain ⟨hlow, hupp⟩ := floorLogDiv_bounds a b ha hb
  have hb0 : (0 : ℚ) < b := by exact_mod_cast hb
  have ha0 : (0 : ℚ) < a := by exact_mod_cast ha
  have key : |(froundDiv a b).val - (a : ℚ) / b| ≤ (2 : ℚ) ^ (floorLogDiv a b - 53) := by
    unfold froundDiv
    split_ifs with h0 ht
    · exact absurd h0 (by omega)
    · have hA : ((a * 2 ^ (52 - floorLogDiv a b).toNat : Nat) : ℚ) =
          (a : ℚ) * (2 : ℚ) ^ ((52 : Int) - floorLogDiv a b) := by
        push_cast
        rw [← zpow_natCast (2 : ℚ), Int.toNat_of_nonneg ht]
      have hrb := rne_bound (a * 2 ^ (52 - floorLogDiv a b).toNat) b hb
      have hexact : (((a * 2 ^ (52 - floorLogDiv a b).toNat : Nat) : ℚ) / b) *
          (2 : ℚ) ^ (floorLogDiv a b - 52) = (a : ℚ) / b := by
        rw [hA, div_mul_eq_mul_div, mul_assoc, ← zpow_add₀ (two_ne_zero : (2:ℚ) ≠ 0)]
        norm_num
      have hp : (0 : ℚ) < (2 : ℚ) ^ (floorLogDiv a b - 52) := by positivity
      simp only [FVal.val]
      calc |(rne (a * 2 ^ (52 - floorLogDiv a b).toNat) b : ℚ) *
              (2 : ℚ) ^ (floorLogDiv a b - 52) - (a : ℚ) / b|
          = |((rne (a * 2 ^ (52 - floorLogDiv a b).toNat) b : ℚ) -
              ((a * 2 ^ (52 - floorLogDiv a b).toNat : Nat) : ℚ) / b) *
              (2 : ℚ) ^ (floorLogDiv a b - 52)| := by rw [sub_mul, hexact]
        _ = |(rne (a * 2 ^ (52 - floorLogDiv a b).toNat) b : ℚ) -
              ((a * 2 ^ (52 - floorLogDiv a b).toNat : Nat) : ℚ) / b| *
              (2 : ℚ) ^ (floorLogDiv a b - 52) := by
            rw [abs_mul, abs_of_pos hp]
        _ ≤ (1 / 2) * (2 : ℚ) ^ (floorLogDiv a b - 52) :=
            mul_le_mul_of_nonneg_right hrb (le_of_lt hp)
        _ = (2 : ℚ) ^ (floorLogDiv a b - 53) := by
            rw [show floorLogDiv a b - 53 = (floorLogDiv a b - 52) + (-1) by ring,
              zpow_add₀ (two_ne_zero : (2:ℚ) ≠ 0)]
            norm_num
            ring
    · have ht' : (0 : Int) ≤ floorLogDiv a b - 52 := by omega
      have hB : ((b * 2 ^ (floorLogDiv a b - 52).toNat : Nat) : ℚ) =
          (b : ℚ) * (2 : ℚ) ^ (floorLogDiv a b - (52 : Int)) := by
        push_cast
        rw [← zpow_natCast (2 : ℚ), Int.toNat_of_nonneg ht']
      have hBpos : 0 < b * 2 ^ (floorLogDiv a b - 52).toNat := by positivity
      have hrb := rne_bound a (b * 2 ^ (floorLogDiv a b - 52).toNat) hBpos
      have hexact : ((a : ℚ) / ((b * 2 ^ (floorLogDiv a b - 52).toNat : Nat) : ℚ)) *
          (2 : ℚ) ^ (floorLogDiv a b - 52) = (a : ℚ) / b := by
        rw [hB]
        have h2 : ((2 : ℚ) ^ (floorLogDiv a b - (52 : Int))) ≠ 0 := by positivity
        field_simp
        ring
      have hp : (0 : ℚ) < (2 : ℚ) ^ (floorLogDiv a b - 52) := by positivity
      simp only [FVal.val]
      calc |(rne a (b * 2 ^ (floorLogDiv a b - 52).toNat) : ℚ) *
              (2 : ℚ) ^ (floorLogDiv a b - 52) - (a : ℚ) / b|
          = |((rne a (b * 2 ^ (floorLogDiv a b - 52).toNat) : ℚ) -
              (a : ℚ) / ((b * 2 ^ (floorLogDiv a b - 52).toNat : Nat) : ℚ)) *
              (2 : ℚ) ^ (floorLogDiv a b - 52)| := by rw [sub_mul, hexact]
        _ = |(rne a (b * 2 ^ (floorLogDiv a b - 52).toNat) : ℚ) -
              (a : ℚ) / ((b * 2 ^ (floorLogDiv a b - 52).toNat : Nat) : ℚ)| *
              (2 : ℚ) ^ (floorLogDiv a b - 52) := by
            rw [abs_mul, abs_of_pos hp]
        _ ≤ (1 / 2) * (2 : ℚ) ^ (floorLogDiv a b - 52) :=
            mul_le_mul_of_nonneg_right hrb (le_of_lt hp)
        _ = (2 : ℚ) ^ (floorLogDiv a b - 53) := by
            rw [show floorLogDiv a b - 53 = (floorLogDiv a b - 52) + (-1) by ring,
              zpow_add₀ (two_ne_zero : (2:ℚ) ≠ 0)]
            norm_num
            ring
  refine key.trans ?_
  rw [u53, show floorLogDiv a b - 53 = floorLogDiv a b + (-53) by ring,
    zpow_add₀ (two_ne_zero : (2:ℚ) ≠ 0)]
  have h253 : ((2 : ℚ) ^ (-53 : Int)) = 1 / 2 ^ 53 := by
    norm_num
  rw [h253]
  have h12 : (0 : ℚ) < 1 / (2:ℚ) ^ 53 := by positivity
  exact mul_le_mul_of_nonneg_right hlow (le_of_lt h12)

theorem froundDiv_le (a b : Nat) (ha : 0 < a) (hb : 0 < b) :
    (froundDiv a b).val ≤ (a : ℚ) / b * (1 + u53) := by
  have h := abs_le.mp (froundDiv_err a b ha hb)
  nlinarith [h.1, h.2]

theorem le_froundDiv (a b : Nat) (ha : 0 < a) (hb : 0 < b) :
    (a : ℚ) / b * (1 - u53) ≤ (froundDiv a b).val := by
  have h := abs_le.mp (froundDiv_err a b ha hb)
  nlinarith [h.1, h.2]

theorem froundDiv_val_pos (a b : Nat) (ha : 0 < a) (hb : 0 < b) :
    0 < (froundDiv a b).val := by
  have h := le_froundDiv a b ha hb
  have ha0 : (0 : ℚ) < a := by exact_mod_cast ha
  have hb0 : (0 : ℚ) < b := by exact_mod_cast hb
  have hu : u53 < 1 := by rw [u53]; norm_num
  have : (0 : ℚ) < (a : ℚ) / b * (1 - u53) := by
    apply mul_pos (div_pos ha0 hb0)
    linarith
  linarith

/-- Value `FVal.val` is positive exactly when the significand is. -/
theorem FVal.val_pos (x : FVal) (hm : 0 < x.m) : 0 < x.val := by
  unfold FVal.val
  have : (0 : ℚ) < (x.m : ℚ) := by exact_mod_cast hm
  positivity

theorem fdivF_err (x y : FVal) (hx : 0 < x.m) (hy : 0 < y.m) :
    |(fdivF x y).val - x.val / y.val| ≤ (x.val / y.val) * u53 := by
  have hxm : (0 : ℚ) < (x.m : ℚ) := by exact_mod_cast hx
  have hym : (0 : ℚ) < (y.m : ℚ) := by exact_mod_cast hy
  unfold fdivF
  split_ifs with hd
  · have hA : ((x.m * 2 ^ (x.e - y.e).toNat : Nat) : ℚ) / (y.m : ℚ) = x.val / y.val := by
      unfold FVal.val
      push_cast
      rw [← zpow_natCast (2 : ℚ), Int.toNat_of_nonneg hd,
        div_eq_div_iff (by positivity) (by positivity)]
      calc (x.m : ℚ) * (2:ℚ) ^ (x.e - y.e) * ((y.m : ℚ) * (2:ℚ) ^ y.e)
          = (x.m : ℚ) * (y.m : ℚ) * ((2:ℚ) ^ (x.e - y.e) * (2:ℚ) ^ y.e) := by ring
        _ = (x.m : ℚ) * (y.m : ℚ) * (2:ℚ) ^ x.e := by
            rw [← zpow_add₀ (two_ne_zero : (2:ℚ) ≠ 0)]
            norm_num
        _ = (x.m : ℚ) * (2:ℚ) ^ x.e * (y.m : ℚ) := by ring
    have h := froundDiv_err (x.m * 2 ^ (x.e - y.e).toNat) y.m
      (by positivity) hy
    rwa [hA] at h
  · have hd' : (0 : Int) ≤ y.e - x.e := by omega
    have hB : (x.m : ℚ) / ((y.m * 2 ^ (y.e - x.e).toNat : Nat) : ℚ) = x.val / y.val := by
      unfold FVal.val
      push_cast
      rw [← zpow_natCast (2 : ℚ), Int.toNat_of_nonneg hd',
        div_eq_div_iff (by positivity) (by positivity)]
      calc (x.m : ℚ) * ((y.m : ℚ) * (2:ℚ) ^ y.e)
          = (x.m : ℚ) * (y.m : ℚ) * (2:ℚ) ^ y.e := by ring
        _ = (x.m : ℚ) * (y.m : ℚ) * ((2:ℚ) ^ x.e * (2:ℚ) ^ (y.e - x.e)) := by
            rw [← zpow_add₀ (two_ne_zero : (2:ℚ) ≠ 0)]
            norm_num
        _ = (x.m : ℚ) * (2:ℚ) ^ x.e * ((y.m : ℚ) * (2:ℚ) ^ (y.e - x.e)) := by ring
    have h := froundDiv_err x.m (y.m * 2 ^ (y.e - x.e).toNat) hx
      (by positivity)
    rwa [hB] at h

/-- Truncation `int()` of a non-negative model float is the floor of its
exact value. -/
theorem pyIntFloor_eq_floor (x : FVal) : (pyIntFloor x : Int) = ⌊x.val⌋ := by
  unfold pyIntFloor FVal.val
  split_ifs with h
  · have hval : (x.m : ℚ) * (2:ℚ) ^ x.e = ((x.m * 2 ^ x.e.toNat : Nat) : ℚ) := by
      push_cast
      rw [← zpow_natCast (2 : ℚ), Int.toNat_of_nonneg h]
    rw [hval, Int.floor_natCast]
  · have hval : (x.m : ℚ) * (2:ℚ) ^ x.e = (x.m : ℚ) / (((2 : Nat) ^ (-x.e).toNat : Nat) : ℚ) := by
      push_cast
      rw [← zpow_natCast (2 : ℚ), Int.toNat_of_nonneg (by omega : (0:Int) ≤ -x.e),
        div_eq_mul_inv, ← zpow_neg]
      norm_num
    rw [hval]
    have hfl : ⌊(x.m : ℚ) / (((2 : Nat) ^ (-x.e).toNat : Nat) : ℚ)⌋₊ =
        x.m / 2 ^ (-x.e).toNat := Nat.floor_div_eq_div x.m (2 ^ (-x.e).toNat)
    have hnn : (0 : ℚ) ≤ (x.m : ℚ) / (((2 : Nat) ^ (-x.e).toNat : Nat) : ℚ) := by positivity
    rw [← Int.natCast_floor_eq_floor hnn, hfl]

/-- A float with positive value has a positive significand. -/
theorem FVal.m_pos_of_val_pos (x : FVal) (h : 0 < x.val) : 0 < x.m := by
  by_contra h0
  have hm : x.m = 0 := by omega
  rw [FVal.val, hm] at h
  simp at h

set_option maxHeartbeats 1600000 in
/-- The heart of the row-count estimate: `int(s / (s / n))` computed in
binary64 is always `n` or `n - 1` for `1 ≤ n ≤ min 100 s`. -/
theorem estimate_near_sampleCount (s n : Nat) (hn : 0 < n) (hns : n ≤ s) (hn100 : n ≤ 100) :
    n - 1 ≤ pyIntFloor (fdivF (froundNat s) (froundDiv s n)) ∧
      pyIntFloor (fdivF (froundNat s) (froundDiv s n)) ≤ n := by
  have hs : 0 < s := lt_of_lt_of_le hn hns
  have hσ : (0 : ℚ) < (s : ℚ) := by exact_mod_cast hs
  have hν1 : (1 : ℚ) ≤ (n : ℚ) := by exact_mod_cast hn
  have hν100 : (n : ℚ) ≤ 100 := by exact_mod_cast hn100
  have hν0 : (0 : ℚ) < (n : ℚ) := by linarith
  have hu0 : (0 : ℚ) < u53 := by rw [u53]; norm_num
  have hu1 : u53 ≤ 1 / 1000 := by rw [u53]; norm_num
  have hX1 : (s : ℚ) * (1 - u53) ≤ (froundNat s).val := by
    have h := le_froundDiv s 1 hs one_pos
    simpa [froundNat] using h
  have hX2 : (froundNat s).val ≤ (s : ℚ) * (1 + u53) := by
    have h := froundDiv_le s 1 hs one_pos
    simpa [froundNat] using h
  have hXpos : 0 < (froundNat s).val := by
    unfold froundNat
    exact froundDiv_val_pos s 1 hs one_pos
  have hY1 : (s : ℚ) / n * (1 - u53) ≤ (froundDiv s n).val := le_froundDiv s n hs hn
  have hY2 : (froundDiv s n).val ≤ (s : ℚ) / n * (1 + u53) := froundDiv_le s n hs hn
  have hYpos : 0 < (froundDiv s n).val := froundDiv_val_pos s n hs hn
  have hW1 : (s : ℚ) * (1 - u53) ≤ (froundDiv s n).val * n := by
    have h := mul_le_mul_of_nonneg_right hY1 (le_of_lt hν0)
    have he : (s : ℚ) / n * (1 - u53) * n = (s : ℚ) * (1 - u53) := by
      field_simp
    linarith [he ▸ h]
  have hW2 : (froundDiv s n).val * n ≤ (s : ℚ) * (1 + u53) := by
    have h := mul_le_mul_of_nonneg_right hY2 (le_of_lt hν0)
    have he : (s : ℚ) / n * (1 + u53) * n = (s : ℚ) * (1 + u53) := by
      field_simp
    linarith [he ▸ h]
  have hWpos : 0 < (froundDiv s n).val * n := mul_pos hYpos hν0
  have hZerr := fdivF_err (froundNat s) (froundDiv s n)
    ((froundNat s).m_pos_of_val_pos hXpos) ((froundDiv s n).m_pos_of_val_pos hYpos)
  obtain ⟨hZ1, hZ2⟩ := abs_le.mp hZerr
  have hZYu : (fdivF (froundNat s) (froundDiv s n)).val * (froundDiv s n).val ≤
      (froundNat s).val * (1 + u53) := by
    have hle : (fdivF (froundNat s) (froundDiv s n)).val ≤
        (froundNat s).val / (froundDiv s n).val * (1 + u53) := by linarith
    have h := mul_le_mul_of_nonneg_right hle (le_of_lt hYpos)
    have he : (froundNat s).val / (froundDiv s n).val * (1 + u53) * (froundDiv s n).val =
        (froundNat s).val * (1 + u53) := by
      field_simp
    linarith [he ▸ h]
  have hZYl : (froundNat s).val * (1 - u53) ≤
      (fdivF (froundNat s) (froundDiv s n)).val * (froundDiv s n).val := by
    have hle : (froundNat s).val / (froundDiv s n).val * (1 - u53) ≤
        (fdivF (froundNat s) (froundDiv s n)).val := by linarith
    have h := mul_le_mul_of_nonneg_right hle (le_of_lt hYpos)
    have he : (froundNat s).val / (froundDiv s n).val * (1 - u53) * (froundDiv s n).val =
        (froundNat s).val * (1 - u53) := by
      field_simp
    linarith [he ▸ h]
  have hZpos : 0 ≤ (fdivF (froundNat s) (froundDiv s n)).val := by
    unfold FVal.val
    positivity
  -- upper bound: Z < n + 1
  have hup : (fdivF (froundNat s) (froundDiv s n)).val < (n : ℚ) + 1 := by
    have c1 : (fdivF (froundNat s) (froundDiv s n)).val * ((froundDiv s n).val * n) ≤
        (s : ℚ) * ((1 + u53) * (1 + u53)) * n := by
      have h1 := mul_le_mul_of_nonneg_right hZYu (le_of_lt hν0)
      have h2 : (froundNat s).val * (1 + u53) * n ≤ (s : ℚ) * (1 + u53) * (1 + u53) * n := by
        have hx := mul_le_mul_of_nonneg_right hX2
          (by positivity : (0:ℚ) ≤ (1 + u53) * n)
        nlinarith [hx]
      nlinarith [h1, h2]
    have c2 : (s : ℚ) * ((1 + u53) * (1 + u53)) * n < (s : ℚ) * (1 - u53) * ((n : ℚ) + 1) := by
      have key : ((1 : ℚ) + u53) * (1 + u53) * n < (1 - u53) * ((n : ℚ) + 1) := by
        simp only [u53]
        nlinarith [hν1, hν100]
      nlinarith [key, hσ]
    have c3 : (s : ℚ) * (1 - u53) * ((n : ℚ) + 1) ≤
        ((froundDiv s n).val * n) * ((n : ℚ) + 1) := by
      have := mul_le_mul_of_nonneg_right hW1 (by positivity : (0:ℚ) ≤ (n : ℚ) + 1)
      linarith
    have hfin : (fdivF (froundNat s) (froundDiv s n)).val * ((froundDiv s n).val * n) <
        ((n : ℚ) + 1) * ((froundDiv s n).val * n) := by nlinarith [c1, c2, c3]
    exact lt_of_mul_lt_mul_right hfin (le_of_lt hWpos)
  -- lower bound: n - 1 ≤ Z
  have hlo : (n : ℚ) - 1 ≤ (fdivF (froundNat s) (froundDiv s n)).val := by
    have c1 : (s : ℚ) * ((1 - u53) * (1 - u53)) * n ≤
        (fdivF (froundNat s) (froundDiv s n)).val * ((froundDiv s n).val * n) := by
      have h1 := mul_le_mul_of_nonneg_right hZYl (le_of_lt hν0)
      have h2 : (s : ℚ) * (1 - u53) * (1 - u53) * n ≤ (froundNat s).val * (1 - u53) * n := by
        have hx := mul_le_mul_of_nonneg_right hX1
          (by nlinarith [hu1, hu0, hν0] : (0:ℚ) ≤ (1 - u53) * n)
        nlinarith [hx]
      nlinarith [h1, h2]
    have c2 : (s : ℚ) * (1 + u53) * ((n : ℚ) - 1) ≤ (s : ℚ) * ((1 - u53) * (1 - u53)) * n := by
      have key : ((1 : ℚ) + u53) * ((n : ℚ) - 1) ≤ (1 - u53) * (1 - u53) * n := by
        simp only [u53]
        nlinarith [hν1, hν100]
      nlinarith [key, hσ]
    have c3 : ((froundDiv s n).val * n) * ((n : ℚ) - 1) ≤
        (s : ℚ) * (1 + u53) * ((n : ℚ) - 1) := by
      have := mul_le_mul_of_nonneg_right hW2 (by linarith : (0:ℚ) ≤ (n : ℚ) - 1)
      linarith
    have hfin : ((n : ℚ) - 1) * ((froundDiv s n).val * n) ≤
        (fdivF (froundNat s) (froundDiv s n)).val * ((froundDiv s n).val * n) := by
      nlinarith [c1, c2, c3]
    exact le_of_mul_le_mul_right (by linarith [hfin]) hWpos
  -- back to the integer result
  have hfl := pyIntFloor_eq_floor (fdivF (froundNat s) (froundDiv s n))
  constructor
  · have h1 : ((n : Int) - 1) ≤ ⌊(fdivF (froundNat s) (froundDiv s n)).val⌋ := by
      apply Int.le_floor.mpr
      push_cast
      linarith
    rw [← hfl] at h1
    omega
  · have h1 : ⌊(fdivF (froundNat s) (froundDiv s n)).val⌋ < (n : Int) + 1 := by
      apply Int.floor_lt.mpr
      push_cast
      linarith
    rw [← hfl] at h1
    omega

/-! ## Chunking lemmas -/

theorem chunkList_flatten (n : Nat) (hn : 0 < n) (l : List Row) :
    (chunkList n l).flatten = l := by
  have H : ∀ N (l : List Row), l.length ≤ N → (chunkList n l).flatten = l := by
    intro N
    induction N with
    | zero =>
      intro l hl
      have hnil : l = [] := List.eq_nil_of_length_eq_zero (by omega)
      subst hnil
      rw [chunkList]
      simp
    | succ N ih =>
      intro l hl
      rw [chunkList]
      split_ifs with h
      · rcases h with h | h
        · omega
        · subst h; simp
      · push_neg at h
        have hlpos : 0 < l.length := List.length_pos.mpr h.2
        have hdl : (l.drop n).length ≤ N := by
          simp only [List.length_drop]
          omega
        rw [List.flatten_cons, ih _ hdl, List.take_append_drop]
  exact H l.length l le_rfl

theorem chunkList_mem (n : Nat) (hn : 0 < n) (l : List Row) :
    ∀ c ∈ chunkList n l, c.length ≤ n ∧ c ≠ [] := by
  have H : ∀ N (l : List Row), l.length ≤ N → ∀ c ∈ chunkList n l,
      c.length ≤ n ∧ c ≠ [] := by
    intro N
    induction N with
    | zero =>
      intro l hl c hc
      have hnil : l = [] := List.eq_nil_of_length_eq_zero (by omega)
      subst hnil
      rw [chunkList] at hc
      simp at hc
    | succ N ih =>
      intro l hl c hc
      rw [chunkList] at hc
      split_ifs at hc with h
      · simp at hc
      · push_neg at h
        have hlpos : 0 < l.length := List.length_pos.mpr h.2
        rcases List.mem_cons.mp hc with rfl | hc'
        · refine ⟨by simpa using List.length_take_le n l, ?_⟩
          apply List.length_pos.mp
          rw [List.length_take]
          omega
        · exact ih (l.drop n) (by simp only [List.length_drop]; omega) c hc'
  exact fun c hc => H l.length l le_rfl c hc

theorem chunkList_dropLast (n : Nat) (hn : 0 < n) (l : List Row) :
    ∀ c ∈ (chunkList n l).dropLast, c.length = n := by
  have H : ∀ N (l : List Row), l.length ≤ N → ∀ c ∈ (chunkList n l).dropLast,
      c.length = n := by
    intro N
    induction N with
    | zero =>
      intro l hl c hc
      have hnil : l = [] := List.eq_nil_of_length_eq_zero (by omega)
      subst hnil
      rw [chunkList] at hc
      simp at hc
    | succ N ih =>
      intro l hl c hc
      rw [chunkList] at hc
      split_ifs at hc with h
      · simp at hc
      · push_neg at h
        have hlpos : 0 < l.length := List.length_pos.mpr h.2
        by_cases hrest : chunkList n (l.drop n) = []
        · rw [hrest] at hc
          simp at hc
        · obtain ⟨x, xs, hxx⟩ : ∃ x xs, chunkList n (l.drop n) = x :: xs := by
            cases hcc : chunkList n (l.drop n) with
            | nil => exact absurd hcc hrest
            | cons x xs => exact ⟨x, xs, rfl⟩
          rw [hxx, List.dropLast_cons₂] at hc
          have hdropne : l.drop n ≠ [] := by
            intro hd
            rw [hd, chunkList] at hxx
            simp at hxx
          have hnlt : n < l.length := by
            by_contra hcon
            exact hdropne (List.drop_eq_nil_of_le (by omega))
          rcases List.mem_cons.mp hc with rfl | hc'
          · rw [List.length_take]
            omega
          · rw [← hxx] at hc'
            exact ih (l.drop n) (by simp only [List.length_drop]; omega) c hc'
  exact fun c hc => H l.length l le_rfl c hc

theorem chunkLoop_eq_chunkList (n : Nat) (hn : 0 < n) :
    ∀ (rows acc : List Row), acc.length < n →
      chunkLoop n rows acc = chunkList n (acc ++ rows) := by
  intro rows
  induction rows with
  | nil =>
    intro acc hacc
    simp only [chunkLoop]
    by_cases ha : acc = []
    · subst ha
      rw [chunkList]
      simp
    · rw [if_neg ha, List.append_nil, chunkList,
        dif_neg (by push_neg; exact ⟨by omega, ha⟩),
        List.take_of_length_le (le_of_lt hacc), List.drop_eq_nil_of_le (le_of_lt hacc),
        show chunkList n ([] : List Row) = [] from by rw [chunkList]; simp]
  | cons r rest ih =>
    intro acc hacc
    simp only [chunkLoop]
    split_ifs with hfull
    · have hlen : (acc ++ [r]).length = n := by
        simp only [List.length_append, List.length_cons, List.length_nil]
        omega
      have hsplit : acc ++ r :: rest = (acc ++ [r]) ++ rest := by simp
      rw [hsplit, chunkList,
        dif_neg (by
          push_neg
          refine ⟨by omega, ?_⟩
          simp), ← hlen, List.take_left, List.drop_left, hlen]
      have h0 : (([] : List Row)).length < n := by simp; omega
      rw [ih [] h0]
      simp
    · have hlt : (acc ++ [r]).length < n := by
        simp only [List.length_append, List.length_cons, List.length_nil]
        omega
      rw [ih (acc ++ [r]) hlt]
      congr 1
      simp

theorem length_le_sum (ls : List Nat) (h : ∀ x ∈ ls, 1 ≤ x) : ls.length ≤ ls.sum := by
  induction ls with
  | nil => simp
  | cons a t ih =>
    simp only [List.length_cons, List.sum_cons]
    have ha := h a (by simp)
    have ht := ih (fun x hx => h x (by simp [hx]))
    omega

/-- C3: for every loaded dataset and every chunkSize > 0,
`get_chunk_generator` yields a finite sequence of batches, each of size at
most `chunkSize` (every batch except possibly the last is exactly
`chunkSize`, and no batch is empty), in source order, whose concatenation
reproduces the dataset's full row sequence exactly; on the large-file
path the batches are read back from the file's data rows, so any two
invocations against the same on-disk contents yield the same batches. -/
theorem c3_chunk_generator_spec (src : ChunkSource) (hwf : src.wf)
    (chunkSize : Nat) (hcs : 0 < chunkSize) :
    (getChunkGenerator src chunkSize).flatten = datasetRows src ∧
    (∀ c ∈ getChunkGenerator src chunkSize, c.length ≤ chunkSize ∧ c ≠ []) ∧
    (∀ c ∈ (getChunkGenerator src chunkSize).dropLast, c.length = chunkSize) := by
  rcases src with ⟨ft, lg, ar, rows⟩
  cases ft
  case json =>
    obtain ⟨rs, hrs⟩ := hwf
    simp only at hrs
    subst hrs
    simp only [getChunkGenerator, datasetRows, Option.getD_some, if_pos rfl]
    by_cases h : rs ≠ []
    · rw [if_pos h]
      exact ⟨chunkList_flatten chunkSize hcs rs, chunkList_mem chunkSize hcs rs,
        chunkList_dropLast chunkSize hcs rs⟩
    · push_neg at h
      subst h
      simp
  case csv =>
    cases lg
    case true =>
      have har : ar = none := by simpa [ChunkSource.wf] using hwf
      subst har
      simp only [getChunkGenerator, datasetRows, Option.getD_none]
      rw [if_neg (by simp), if_neg (by simp)]
      rw [chunkLoop_eq_chunkList chunkSize hcs rows [] (by simpa using hcs)]
      simp only [List.nil_append]
      exact ⟨chunkList_flatten chunkSize hcs rows, chunkList_mem chunkSize hcs rows,
        chunkList_dropLast chunkSize hcs rows⟩
    case false =>
      have har : ar = some rows := by simpa [ChunkSource.wf] using hwf
      subst har
      simp only [getChunkGenerator, datasetRows, Option.getD_some]
      rw [if_neg (by simp)]
      by_cases h : rows ≠ []
      · rw [if_pos (by simp [h])]
        exact ⟨chunkList_flatten chunkSize hcs rows, chunkList_mem chunkSize hcs rows,
          chunkList_dropLast chunkSize hcs rows⟩
      · push_neg at h
        subst h
        rw [if_neg (by simp)]
        simp [chunkLoop]

/-- Witness for C3 at a concrete large-file dataset and `chunkSize = 2`. -/
theorem c3_chunk_generator_spec_witness :
    (ChunkSource.mk .csv true none [["a"], ["b"], ["c"]]).wf ∧ 0 < 2 ∧
    ((getChunkGenerator (ChunkSource.mk .csv true none [["a"], ["b"], ["c"]]) 2).flatten =
        datasetRows (ChunkSource.mk .csv true none [["a"], ["b"], ["c"]]) ∧
      (∀ c ∈ getChunkGenerator (ChunkSource.mk .csv true none [["a"], ["b"], ["c"]]) 2,
        c.length ≤ 2 ∧ c ≠ []) ∧
      (∀ c ∈ (getChunkGenerator
          (ChunkSource.mk .csv true none [["a"], ["b"], ["c"]]) 2).dropLast,
        c.length = 2)) :=
  ⟨by simp [ChunkSource.wf], by decide,
    c3_chunk_generator_spec (ChunkSource.mk .csv true none [["a"], ["b"], ["c"]])
      (by simp [ChunkSource.wf]) 2 (by decide)⟩

/-- C9: a load that fails with an unreadable path, malformed JSON, or an
unparseable header leaves the cache in the cleared state: no headers, no
sample rows, no rows, no file info, and `is_loaded` false; the error is
surfaced to the caller. -/
theorem c9_failed_load_leaves_cache_cleared (c : Cache) (pct threshold : Nat)
    (src : Source)
    (herr : src = .csv .ioError ∨ (∃ ls, src = .csv (.content ls .headerError)) ∨
      src = .json .ioError ∨ src = .json .parseError) :
    ((loadFile c src pct threshold).2).isSome = true ∧
    (loadFile c src pct threshold).1.headers = none ∧
    (loadFile c src pct threshold).1.sampleRows = none ∧
    (loadFile c src pct threshold).1.allRows = none ∧
    (loadFile c src pct threshold).1.fileInfo = none ∧
    (loadFile c src pct threshold).1.isLoaded = false := by
  rcases herr with rfl | ⟨ls, rfl⟩ | rfl | rfl
  · simp [loadFile, clearCache]
  · by_cases hL : isLargeCsv ls threshold <;>
      simp [loadFile, loadCsvFile, loadSmallCsv, loadLargeCsv, clearCache, hL]
  · simp [loadFile, loadJson, clearCache]
  · simp [loadFile, loadJson, clearCache]

/-- Witness for C9: a malformed JSON file against a fresh cache. -/
theorem c9_failed_load_leaves_cache_cleared_witness :
    ((.json .parseError : Source) = .csv .ioError ∨
      (∃ ls, (.json .parseError : Source) = .csv (.content ls .headerError)) ∨
      (.json .parseError : Source) = .json .ioError ∨
      (.json .parseError : Source) = .json .parseError) ∧
    (((loadFile emptyCache (.json .parseError) 15 50000).2).isSome = true ∧
      (loadFile emptyCache (.json .parseError) 15 50000).1.headers = none ∧
      (loadFile emptyCache (.json .parseError) 15 50000).1.sampleRows = none ∧
      (loadFile emptyCache (.json .parseError) 15 50000).1.allRows = none ∧
      (loadFile emptyCache (.json .parseError) 15 50000).1.fileInfo = none ∧
      (loadFile emptyCache (.json .parseError) 15 50000).1.isLoaded = false) :=
  ⟨Or.inr (Or.inr (Or.inr rfl)),
    c9_failed_load_leaves_cache_cleared emptyCache 15 50000 (.json .parseError)
      (Or.inr (Or.inr (Or.inr rfl)))⟩

/-! ## Exact evaluation of the sampling formulas -/

/-- A correctly rounded quotient of an exact division with a small result
is exact. -/
theorem froundDiv_exact_of_dvd (b k : Nat) (hb : 0 < b) (hk : 0 < k)
    (hlt : k < 2 ^ 53) : (froundDiv (b * k) b).val = (k : ℚ) := by
  have ha : 0 < b * k := by positivity
  obtain ⟨hlow, hupp⟩ := floorLogDiv_bounds (b * k) b ha hb
  have hb0 : (0 : ℚ) < (b : ℚ) := by exact_mod_cast hb
  have hq : ((b * k : Nat) : ℚ) / b = (k : ℚ) := by
    push_cast
    field_simp
  rw [hq] at hlow hupp
  have hk1 : (1 : ℚ) ≤ (k : ℚ) := by exact_mod_cast hk
  have hklt : (k : ℚ) < 2 ^ 53 := by exact_mod_cast hlt
  have he0 : 0 ≤ floorLogDiv (b * k) b := by
    by_contra hcon
    push_neg at hcon
    have hle : (2 : ℚ) ^ (floorLogDiv (b * k) b + 1) ≤ (2 : ℚ) ^ (0 : Int) := by
      apply zpow_le_zpow_right₀ one_le_two
      omega
    rw [zpow_zero] at hle
    linarith
  have he52 : floorLogDiv (b * k) b ≤ 52 := by
    by_contra hcon
    push_neg at hcon
    have hle : (2 : ℚ) ^ (53 : Int) ≤ (2 : ℚ) ^ floorLogDiv (b * k) b := by
      apply zpow_le_zpow_right₀ one_le_two
      omega
    have h53 : ((2 : ℚ) ^ (53 : Int)) = (2 : ℚ) ^ (53 : Nat) := by
      rw [← zpow_natCast]
      norm_num
    rw [h53] at hle
    linarith
  unfold froundDiv
  rw [if_neg (Nat.pos_iff_ne_zero.mp ha), if_pos (by omega)]
  have hmul : (b * k) * 2 ^ (52 - floorLogDiv (b * k) b).toNat =
      b * (k * 2 ^ (52 - floorLogDiv (b * k) b).toNat) := by ring
  have hrne : rne ((b * k) * 2 ^ (52 - floorLogDiv (b * k) b).toNat) b =
      k * 2 ^ (52 - floorLogDiv (b * k) b).toNat := by
    unfold rne
    rw [hmul, Nat.mul_mod_right, Nat.mul_div_cancel_left _ hb]
    rw [if_pos (by omega)]
  simp only [FVal.val]
  rw [hrne]
  push_cast
  rw [mul_assoc, ← zpow_natCast (2 : ℚ) ((52 - floorLogDiv (b * k) b).toNat),
    Int.toNat_of_nonneg (by omega), ← zpow_add₀ (two_ne_zero : (2:ℚ) ≠ 0)]
  norm_num

/-- Target `max(1000, int(10000 * pct / 100))` evaluates exactly, because the
quotient is the integer `100 * pct`. -/
theorem sampleTargetLarge_eq (pct : Nat) (h1 : 1 ≤ pct) (h100 : pct ≤ 100) :
    sampleTargetLarge pct = max 1000 ((10000 * pct) / 100) := by
  have hm : 10000 * pct = 100 * (100 * pct) := by ring
  have hq : (10000 * pct) / 100 = 100 * pct := by omega
  unfold sampleTargetLarge
  rw [hq]
  congr 1
  have hval := froundDiv_exact_of_dvd 100 (100 * pct) (by norm_num) (by omega) (by
    have : 100 * pct ≤ 10000 := by omega
    omega)
  rw [← hm] at hval
  have hfl := pyIntFloor_eq_floor (froundDiv (10000 * pct) 100)
  rw [hval, Int.floor_natCast] at hfl
  exact_mod_cast hfl

/-- Evaluating `int(a / 100)` computed through binary64 equals the exact floor
`a / 100` for all `a ≤ 2 ^ 46` (the rounding error is below the 1/100
distance to the surrounding integers). -/
theorem pyFloor_ratio100 (a : Nat) (hle : a ≤ 2 ^ 46) :
    pyIntFloor (froundDiv a 100) = a / 100 := by
  rcases Nat.eq_zero_or_pos a with h0 | hpos
  · subst h0
    decide
  by_cases hdvd : 100 ∣ a
  · obtain ⟨k, hk⟩ := hdvd
    subst hk
    have hk0 : 0 < k := by
      rcases Nat.eq_zero_or_pos k with h | h
      · subst h; simp at hpos
      · exact h
    have hval := froundDiv_exact_of_dvd 100 k (by norm_num) hk0 (by
      have : k ≤ 2 ^ 46 := by omega
      omega)
    have hfl := pyIntFloor_eq_floor (froundDiv (100 * k) 100)
    rw [hval, Int.floor_natCast] at hfl
    have hq : 100 * k / 100 = k := Nat.mul_div_cancel_left _ (by norm_num)
    rw [hq]
    exact_mod_cast hfl
  · have herr := abs_le.mp (froundDiv_err a 100 hpos (by norm_num))
    have hfl := pyIntFloor_eq_floor (froundDiv a 100)
    have hdm : 100 * (a / 100) + a % 100 = a := Nat.div_add_mod a 100
    have hr1 : 1 ≤ a % 100 := by
      rcases Nat.eq_zero_or_pos (a % 100) with h | h
      · exact absurd (Nat.dvd_of_mod_eq_zero h) hdvd
      · exact h
    have hr99 : a % 100 ≤ 99 := by omega
    have hqeq : (a : ℚ) / 100 = ((a / 100 : Nat) : ℚ) + ((a % 100 : Nat) : ℚ) / 100 := by
      have hA : (a : ℚ) = 100 * ((a / 100 : Nat) : ℚ) + ((a % 100 : Nat) : ℚ) := by
        exact_mod_cast (congrArg (fun n : Nat => (n : ℚ)) hdm).symm
      rw [hA]
      field_simp
      ring
    have hqu : (a : ℚ) / 100 * u53 < 1 / 100 := by
      rw [u53]
      have haq : (a : ℚ) ≤ 2 ^ 46 := by exact_mod_cast hle
      have ha0 : (0 : ℚ) ≤ (a : ℚ) := by positivity
      nlinarith [haq, ha0]
    have hrb0 : (0 : ℚ) ≤ ((a % 100 : Nat) : ℚ) / 100 := by positivity
    have hrb1 : (1 : ℚ) / 100 ≤ ((a % 100 : Nat) : ℚ) / 100 := by
      have : (1 : ℚ) ≤ ((a % 100 : Nat) : ℚ) := by exact_mod_cast hr1
      linarith
    have hrb99 : ((a % 100 : Nat) : ℚ) / 100 ≤ 99 / 100 := by
      have : ((a % 100 : Nat) : ℚ) ≤ 99 := by exact_mod_cast hr99
      linarith
    have hq0 : (0 : ℚ) ≤ (a : ℚ) / 100 := by positivity
    have hu0 : (0 : ℚ) < u53 := by rw [u53]; norm_num
    have hlo : ((a / 100 : Nat) : ℚ) ≤ (froundDiv a 100).val := by
      nlinarith [herr.1, hqeq, hqu, hrb1, hq0, hu0]
    have hhi : (froundDiv a 100).val < ((a / 100 : Nat) : ℚ) + 1 := by
      nlinarith [herr.2, hqeq, hqu, hrb99, hq0, hu0]
    have hfloor : ⌊(froundDiv a 100).val⌋ = ((a / 100 : Nat) : Int) := by
      rw [Int.floor_eq_iff]
      refine ⟨?_, ?_⟩
      · push_cast
        exact hlo
      · push_cast
        exact hhi
    rw [hfloor] at hfl
    exact_mod_cast hfl

/-- Size `max(100, int(nrows * pct / 100))` evaluates exactly for
`nrows * pct ≤ 2 ^ 46`. -/
theorem sampleSizeSmall_eq (nrows pct : Nat) (hb : nrows * pct ≤ 2 ^ 46) :
    sampleSizeSmall nrows pct = max 100 ((nrows * pct) / 100) := by
  unfold sampleSizeSmall
  rw [pyFloor_ratio100 _ hb]

/-- C1 counterexample: a 101-line file of 2-byte lines.  The claimed
formula (average byte length of the first 100 lines, i.e. 2 bytes, giving
`floor(202 / 2) = 101`) disagrees with the code, which divides the total
file size by the sample count (`avg = 202/100 = 2.02`, estimate 100). -/
theorem c1_counterexample :
    ¬ (estimatedRows (List.replicate 101 2) =
      claimedEstimatedRows (List.replicate 101 2)) := by
  have h1 : estimatedRows (List.replicate 101 2) = 100 := by decide
  have h2 : claimedEstimatedRows (List.replicate 101 2) = 101 := by
    unfold claimedEstimatedRows
    rw [if_neg (by decide),
      show List.take 100 (List.replicate 101 2) = List.replicate 100 2 from by decide,
      show (List.replicate 100 (2 : Nat)).sum = 200 from by decide,
      show (List.replicate 100 (2 : Nat)).length = 100 from by decide,
      show (List.replicate 101 (2 : Nat)).sum = 202 from by decide]
    norm_num
    decide
  rw [h1, h2]
  decide

/-- C1 amended: the estimate is the binary64 floor of
`totalBytes / (totalBytes / sampleCount)` — the divisor is the total file
size over the number of sampled lines, not the mean sampled-line length —
and an empty file yields an estimate of 0, not a minimum of 1. -/
theorem c1_estimator_formula (ls : List Nat) :
    (ls = [] → estimatedRows ls = 0) ∧
    (ls ≠ [] → (estimatedRows ls : Int) =
      ⌊(fdivF (froundNat ls.sum) (froundDiv ls.sum (min 100 ls.length))).val⌋) := by
  constructor
  · rintro rfl
    decide
  · intro h
    have hpos := List.length_pos.mpr h
    unfold estimatedRows
    rw [if_neg (by rw [List.length_take]; omega), List.length_take]
    exact pyIntFloor_eq_floor _

/-- Witness for C1 (amended) at the two-line file `[2, 2]`. -/
theorem c1_estimator_formula_witness :
    ([2, 2] : List Nat) ≠ [] ∧
    (estimatedRows [2, 2] : Int) =
      ⌊(fdivF (froundNat ([2, 2] : List Nat).sum)
        (froundDiv ([2, 2] : List Nat).sum (min 100 ([2, 2] : List Nat).length))).val⌋ :=
  ⟨by decide, (c1_estimator_formula [2, 2]).2 (by decide)⟩

/-- C2 counterexample: for the 7-line, 9-byte file the estimate is 6, not
the sampled line count 7 — `int(9 / (9 / 7))` rounds below 7 in binary64
(`9/7` rounds up, so the quotient rounds to `6.999…`). -/
theorem c2_counterexample :
    ¬ (estimatedRows [3, 1, 1, 1, 1, 1, 1] =
      (List.take 100 [3, 1, 1, 1, 1, 1, 1]).length) := by decide

/-- C2 amended: the estimate equals the sampled line count up to one unit
of floating-point rounding (it is `n` or `n - 1` for `n` sampled lines),
so it never exceeds `min 100 (number of lines)`; consequently for every
threshold of at least 100 a delimited file is never classified large and
the small strategy (which materializes `all_rows`) is always chosen. -/
theorem c2_estimate_tracks_sample_count (ls : List Nat) (hne : ls ≠ [])
    (hpos : ∀ x ∈ ls, 1 ≤ x) (threshold : Nat) (hthr : 100 ≤ threshold) :
    (min 100 ls.length - 1 ≤ estimatedRows ls ∧
      estimatedRows ls ≤ min 100 ls.length) ∧
    isLargeCsv ls threshold = false ∧
    (∀ (c : Cache) (hdrs : List String) (rows : List Row) (pct : Nat),
      (loadFile c (.csv (.content ls (.ok hdrs rows))) pct threshold).1.allRows =
        some rows) := by
  have hlen0 : 0 < ls.length := List.length_pos.mpr hne
  have hn : 0 < (ls.take 100).length := by rw [List.length_take]; omega
  have hns : (ls.take 100).length ≤ ls.sum := by
    have h1 : (ls.take 100).length ≤ ls.length := by rw [List.length_take]; omega
    have h2 := length_le_sum ls hpos
    omega
  have hn100 : (ls.take 100).length ≤ 100 := by rw [List.length_take]; omega
  have hbounds := estimate_near_sampleCount ls.sum (ls.take 100).length hn hns hn100
  have hest : estimatedRows ls =
      pyIntFloor (fdivF (froundNat ls.sum) (froundDiv ls.sum (ls.take 100).length)) := by
    unfold estimatedRows
    rw [if_neg (by omega)]
  have htake : (ls.take 100).length = min 100 ls.length := List.length_take 100 ls
  have hub : estimatedRows ls ≤ min 100 ls.length := by
    rw [hest, ← htake]
    exact hbounds.2
  have hlb : min 100 ls.length - 1 ≤ estimatedRows ls := by
    rw [hest, ← htake]
    exact hbounds.1
  have hLfalse : isLargeCsv ls threshold = false := by
    simp only [isLargeCsv, decide_eq_false_iff_not, not_lt]
    omega
  refine ⟨⟨hlb, hub⟩, hLfalse, ?_⟩
  intro c hdrs rows pct
  simp [loadFile, loadCsvFile, loadSmallCsv, hLfalse, finishLoad]

/-- Witness for C2 (amended) at the file `[2, 2]` with threshold 100. -/
theorem c2_estimate_tracks_sample_count_witness :
    (([2, 2] : List Nat) ≠ [] ∧ (∀ x ∈ ([2, 2] : List Nat), 1 ≤ x) ∧
      100 ≤ 100) ∧
    ((min 100 ([2, 2] : List Nat).length - 1 ≤ estimatedRows [2, 2] ∧
        estimatedRows [2, 2] ≤ min 100 ([2, 2] : List Nat).length) ∧
      isLargeCsv [2, 2] 100 = false ∧
      (∀ (c : Cache) (hdrs : List String) (rows : List Row) (pct : Nat),
        (loadFile c (.csv (.content [2, 2] (.ok hdrs rows))) pct 100).1.allRows =
          some rows)) :=
  ⟨⟨by decide, by decide, by decide⟩,
    c2_estimate_tracks_sample_count [2, 2] (by decide) (by decide) 100 (by decide)⟩

set_option maxRecDepth 40000 in
/-- C4 counterexample: 1001 data rows at 15%: the code samples
`max(100, int(1001 * 15 / 100)) = 150` rows, but the claimed formula
`max(100, ceil(1001 * 15 / 100))` capped at 1001 gives 151. -/
theorem c4_counterexample :
    ¬ (((loadFile emptyCache
        (.csv (.content [5] (.ok ["h"] (List.replicate 1001 ["x"]))))
        15 50000).1.sampleRows.getD []).length =
      claimedSmallSampleLen 1001 15) := by decide

/-- C4 amended: for a delimited file classified small, `all_rows` holds
all `N` data rows and `sample_rows` is the prefix of length
`max(100, floor(N * samplePercentage / 100))` capped at `N` — the code
truncates with `int()` (floor), not a ceiling.  (The bound keeps the
binary64 arithmetic exact; it holds for every realistic file.) -/
theorem c4_small_load_spec (c : Cache) (ls : List Nat) (hdrs : List String)
    (rows : List Row) (pct threshold : Nat)
    (hsmall : isLargeCsv ls threshold = false)
    (hbound : rows.length * pct ≤ 2 ^ 46) :
    (loadFile c (.csv (.content ls (.ok hdrs rows))) pct threshold).1.allRows =
      some rows ∧
    (loadFile c (.csv (.content ls (.ok hdrs rows))) pct threshold).1.sampleRows =
      some (rows.take (max 100 ((rows.length * pct) / 100))) ∧
    ((loadFile c (.csv (.content ls (.ok hdrs rows)))
        pct threshold).1.sampleRows.getD []).length =
      min (max 100 ((rows.length * pct) / 100)) rows.length ∧
    ((loadFile c (.csv (.content ls (.ok hdrs rows)))
        pct threshold).1.sampleRows.getD []) <+: rows := by
  have hss := sampleSizeSmall_eq rows.length pct hbound
  simp [loadFile, loadCsvFile, loadSmallCsv, hsmall, finishLoad, hss,
    List.length_take, List.take_prefix]

/-- Witness for C4 (amended): three rows at 100%. -/
theorem c4_small_load_spec_witness :
    (isLargeCsv [5] 50000 = false ∧
      (List.replicate 3 ["x"]).length * 100 ≤ 2 ^ 46) ∧
    ((loadFile emptyCache (.csv (.content [5] (.ok ["h"] (List.replicate 3 ["x"]))))
        100 50000).1.allRows = some (List.replicate 3 ["x"]) ∧
      (loadFile emptyCache (.csv (.content [5] (.ok ["h"] (List.replicate 3 ["x"]))))
        100 50000).1.sampleRows =
        some ((List.replicate 3 ["x"]).take
          (max 100 (((List.replicate 3 ["x"]).length * 100) / 100))) ∧
      ((loadFile emptyCache (.csv (.content [5] (.ok ["h"] (List.replicate 3 ["x"]))))
          100 50000).1.sampleRows.getD []).length =
        min (max 100 (((List.replicate 3 ["x"]).length * 100) / 100))
          (List.replicate 3 ["x"]).length ∧
      ((loadFile emptyCache (.csv (.content [5] (.ok ["h"] (List.replicate 3 ["x"]))))
          100 50000).1.sampleRows.getD []) <+: List.replicate 3 ["x"]) :=
  ⟨⟨by decide, by decide⟩,
    c4_small_load_spec emptyCache [5] ["h"] (List.replicate 3 ["x"]) 100 50000
      (by decide) (by decide)⟩

/-- C5: for a delimited file classified large, `all_rows` is never
populated and `sample_rows` is the prefix of length
`max(1000, floor(10000 * samplePercentage / 100))`, or the whole file if
it has fewer data rows; nothing beyond that prefix is read. -/
theorem c5_large_load_spec (c : Cache) (ls : List Nat) (hdrs : List String)
    (rows : List Row) (pct threshold : Nat) (hp1 : 1 ≤ pct) (hp100 : pct ≤ 100)
    (hlarge : isLargeCsv ls threshold = true) :
    (loadFile c (.csv (.content ls (.ok hdrs rows))) pct threshold).1.allRows = none ∧
    (loadFile c (.csv (.content ls (.ok hdrs rows))) pct threshold).1.sampleRows =
      some (rows.take (max 1000 ((10000 * pct) / 100))) ∧
    ((loadFile c (.csv (.content ls (.ok hdrs rows)))
        pct threshold).1.sampleRows.getD []).length =
      min (max 1000 ((10000 * pct) / 100)) rows.length := by
  have hst := sampleTargetLarge_eq pct hp1 hp100
  simp [loadFile, loadCsvFile, loadLargeCsv, hlarge, finishLoad, hst, List.length_take]

/-- Witness for C5: a large-classified file (estimate 100 > threshold 50)
sampled at 15%. -/
theorem c5_large_load_spec_witness :
    (1 ≤ 15 ∧ (15 : Nat) ≤ 100 ∧ isLargeCsv (List.replicate 101 2) 50 = true) ∧
    ((loadFile emptyCache (.csv (.content (List.replicate 101 2)
        (.ok ["h"] (List.replicate 3 ["x"])))) 15 50).1.allRows = none ∧
      (loadFile emptyCache (.csv (.content (List.replicate 101 2)
        (.ok ["h"] (List.replicate 3 ["x"])))) 15 50).1.sampleRows =
        some ((List.replicate 3 ["x"]).take (max 1000 ((10000 * 15) / 100))) ∧
      ((loadFile emptyCache (.csv (.content (List.replicate 101 2)
          (.ok ["h"] (List.replicate 3 ["x"])))) 15 50).1.sampleRows.getD []).length =
        min (max 1000 ((10000 * 15) / 100)) (List.replicate 3 ["x"]).length) :=
  ⟨⟨by decide, by decide, by decide⟩,
    c5_large_load_spec emptyCache (List.replicate 101 2) ["h"]
      (List.replicate 3 ["x"]) 15 50 (by decide) (by decide) (by decide)⟩

/-! ## Vote-accounting lemmas for the type inferrer -/

theorem lookup_bump_map_ne (tv : List (String × Nat)) (k k' : String) (h : k' ≠ k) :
    (tv.map (fun p => if p.1 == k then (p.1, p.2 + 1) else p)).lookup k' =
      tv.lookup k' := by
  induction tv with
  | nil => rfl
  | cons a rest ih =>
    rcases a with ⟨ak, ac⟩
    simp only [List.map_cons]
    by_cases hak : (ak == k) = true
    · have hake : ak = k := eq_of_beq hak
      rw [if_pos hak]
      simp only [List.lookup]
      have hne : (k' == ak) = false := by
        rw [beq_eq_false_iff_ne]
        rw [hake]
        exact h
      rw [hne]
      simp only [ih]
    · rw [if_neg hak]
      simp only [List.lookup]
      by_cases hk' : (k' == ak) = true
      · rw [hk']
      · rw [Bool.not_eq_true] at hk'
        rw [hk']
        simp only [ih]

theorem lookup_none_of_any_false (tv : List (String × Nat)) (k : String)
    (h : tv.any (fun p => p.1 == k) = false) : tv.lookup k = none := by
  induction tv with
  | nil => rfl
  | cons a rest ih =>
    rcases a with ⟨ak, ac⟩
    simp only [List.any_cons, Bool.or_eq_false_iff] at h
    obtain ⟨h1, h2⟩ := h
    simp only [List.lookup]
    have hke : (k == ak) = false := by
      rw [beq_eq_false_iff_ne] at h1 ⊢
      exact fun he => h1 he.symm
    rw [hke]
    exact ih h2

theorem lookup_append_singleton (tv : List (String × Nat)) (k : String)
    (h : tv.lookup k = none) : (tv ++ [(k, 1)]).lookup k = some 1 := by
  induction tv with
  | nil => simp [List.lookup]
  | cons a rest ih =>
    rcases a with ⟨ak, ac⟩
    simp only [List.lookup] at h ⊢
    by_cases hk : (k == ak) = true
    · rw [hk] at h
      exact absurd h (by simp)
    · rw [Bool.not_eq_true] at hk
      rw [hk] at h ⊢
      simp only [List.cons_append, List.lookup, hk]
      exact ih h

theorem lookup_append_singleton_ne (tv : List (String × Nat)) (k k' : String)
    (h : k' ≠ k) : (tv ++ [(k, 1)]).lookup k' = tv.lookup k' := by
  induction tv with
  | nil =>
    simp only [List.nil_append, List.lookup]
    rw [show (k' == k) = false from beq_eq_false_iff_ne.mpr h]
  | cons a rest ih =>
    rcases a with ⟨ak, ac⟩
    simp only [List.cons_append, List.lookup]
    by_cases hk : (k' == ak) = true
    · rw [hk]
    · rw [Bool.not_eq_true] at hk
      rw [hk]
      exact ih

theorem lookup_bump_map_self (tv : List (String × Nat)) (k : String)
    (hany : tv.any (fun p => p.1 == k) = true) :
    (tv.map (fun p => if p.1 == k then (p.1, p.2 + 1) else p)).lookup k =
      some ((tv.lookup k).getD 0 + 1) := by
  induction tv with
  | nil => simp at hany
  | cons a rest ih =>
    rcases a with ⟨ak, ac⟩
    simp only [List.any_cons, Bool.or_eq_true] at hany
    simp only [List.map_cons]
    by_cases hak : (ak == k) = true
    · rw [if_pos hak]
      have hke : (k == ak) = true := by
        have : ak = k := eq_of_beq hak
        simp [this]
      simp [List.lookup, hke]
    · rw [if_neg hak]
      have hrest : rest.any (fun p => p.1 == k) = true := by
        rcases hany with h | h
        · exact absurd h hak
        · exact h
      have hke : (k == ak) = false := by
        rw [beq_eq_false_iff_ne]
        intro he
        exact hak (by simp [he])
      simp only [List.lookup, hke]
      exact ih hrest

/-- Incrementing `votes[k] += 1` on a `defaultdict(int)`: the count of the voted
bucket increases by exactly one. -/
theorem bumpVote_lookup_self (tv : List (String × Nat)) (k : String) :
    (bumpVote tv k).lookup k = some ((tv.lookup k).getD 0 + 1) := by
  unfold bumpVote
  by_cases hany : (tv.any (fun p => p.1 == k)) = true
  · rw [if_pos hany]
    exact lookup_bump_map_self tv k hany
  · rw [Bool.not_eq_true] at hany
    rw [if_neg (by rw [hany]; exact Bool.false_ne_true)]
    rw [lookup_append_singleton tv k (lookup_none_of_any_false tv k hany),
      lookup_none_of_any_false tv k hany]
    rfl

/-- Incrementing `votes[k] += 1` does not touch any other bucket. -/
theorem bumpVote_lookup_ne (tv : List (String × Nat)) (k k' : String) (h : k' ≠ k) :
    (bumpVote tv k).lookup k' = tv.lookup k' := by
  unfold bumpVote
  by_cases hany : (tv.any (fun p => p.1 == k)) = true
  · rw [if_pos hany]
    exact lookup_bump_map_ne tv k k' h
  · rw [Bool.not_eq_true] at hany
    rw [if_neg (by rw [hany]; exact Bool.false_ne_true)]
    exact lookup_append_singleton_ne tv k k' h

/-- C6: per cell, the inferrer strips whitespace first; an empty stripped
value only feeds the max-length (a no-op for the empty string) and casts
no vote; a non-empty stripped value updates the max-length and casts
exactly one vote for the first matching bucket in the precedence order
boolean, integer, float, datetime, string; and the five specified
samples infer `INT`, `FLOAT`, `BIT`, `DATETIME`, `NVARCHAR(10)`. -/
theorem c6_type_inference_spec :
    (∀ (v : String) (tv : List (String × Nat)) (ml : Nat), pyStrip v = "" →
      updateCols [v] [tv] [ml] = ([tv], [ml])) ∧
    (∀ (v : String) (tv : List (String × Nat)) (ml : Nat), pyStrip v ≠ "" →
      updateCols [v] [tv] [ml] =
        ([bumpVote tv (classifyValue (pyStrip v))], [max ml (pyStrip v).length])) ∧
    (∀ (tv : List (String × Nat)) (k : String),
      (bumpVote tv k).lookup k = some ((tv.lookup k).getD 0 + 1) ∧
      ∀ k', k' ≠ k → (bumpVote tv k).lookup k' = tv.lookup k') ∧
    (∀ v : String,
      ((pyLower v = "0" ∨ pyLower v = "1" ∨ pyLower v = "true" ∨ pyLower v = "false") →
        classifyValue v = "BIT") ∧
      (¬(pyLower v = "0" ∨ pyLower v = "1" ∨ pyLower v = "true" ∨ pyLower v = "false") →
        isIntPattern v = true → classifyValue v = "INT") ∧
      (¬(pyLower v = "0" ∨ pyLower v = "1" ∨ pyLower v = "true" ∨ pyLower v = "false") →
        isIntPattern v = false → isFloatPattern v = true → classifyValue v = "FLOAT") ∧
      (¬(pyLower v = "0" ∨ pyLower v = "1" ∨ pyLower v = "true" ∨ pyLower v = "false") →
        isIntPattern v = false → isFloatPattern v = false → isDatePattern v = true →
        classifyValue v = "DATETIME") ∧
      (¬(pyLower v = "0" ∨ pyLower v = "1" ∨ pyLower v = "true" ∨ pyLower v = "false") →
        isIntPattern v = false → isFloatPattern v = false → isDatePattern v = false →
        classifyValue v = "VARCHAR")) ∧
    (inferColumnTypes [["1"], ["2"], ["3"]] ["h"] 1000 = ["INT"] ∧
      inferColumnTypes [["1.5"], ["2.0"]] ["h"] 1000 = ["FLOAT"] ∧
      inferColumnTypes [["true"], ["false"], ["1"]] ["h"] 1000 = ["BIT"] ∧
      inferColumnTypes [["2024-01-01"], ["2024-02-02"]] ["h"] 1000 = ["DATETIME"] ∧
      inferColumnTypes [["hello"], ["world"]] ["h"] 1000 = ["NVARCHAR(10)"]) := by
  refine ⟨?_, ?_, ?_, ?_, ?_⟩
  · intro v tv ml h
    simp [updateCols, h]
  · intro v tv ml h
    simp [updateCols, h]
  · intro tv k
    exact ⟨bumpVote_lookup_self tv k, fun k' h => bumpVote_lookup_ne tv k k' h⟩
  · intro v
    refine ⟨?_, ?_, ?_, ?_, ?_⟩
    · rintro (h | h | h | h) <;> simp [classifyValue, h]
    · intro hnb hint
      push_neg at hnb
      obtain ⟨h0, h1, ht, hf⟩ := hnb
      simp [classifyValue, beq_iff_eq, h0, h1, ht, hf, hint]
    · intro hnb hint hflt
      push_neg at hnb
      obtain ⟨h0, h1, ht, hf⟩ := hnb
      simp [classifyValue, beq_iff_eq, h0, h1, ht, hf, hint, hflt]
    · intro hnb hint hflt hdt
      push_neg at hnb
      obtain ⟨h0, h1, ht, hf⟩ := hnb
      simp [classifyValue, beq_iff_eq, h0, h1, ht, hf, hint, hflt, hdt]
    · intro hnb hint hflt hdt
      push_neg at hnb
      obtain ⟨h0, h1, ht, hf⟩ := hnb
      simp [classifyValue, beq_iff_eq, h0, h1, ht, hf, hint, hflt, hdt]
  · exact ⟨by decide, by decide, by decide, by decide, by decide⟩

/-- Witness for C6 at the cell `" 42 "` (stripped to `"42"`, an integer
vote) in a previously empty column. -/
theorem c6_type_inference_spec_witness :
    pyStrip " 42 " ≠ "" ∧
    updateCols [" 42 "] [([] : List (String × Nat))] [0] =
      ([bumpVote [] (classifyValue (pyStrip " 42 "))],
        [max 0 (pyStrip " 42 ").length]) :=
  ⟨by decide, c6_type_inference_spec.2.1 " 42 " [] 0 (by decide)⟩

/-- C8: the insert-value formatter, per column in order: an
`INT IDENTITY` type contributes no value at all; a `UNIQUEIDENTIFIER`
column whose cell strips to empty emits `NEWID()`; any other empty cell
emits `NULL`; a quoted type (one not starting with an unquoted
numeric/boolean keyword) emits the single-quoted value with embedded
quotes doubled; every other type emits the raw value.  The closing
conjuncts exhibit quote escaping and the identity column vanishing from
the emitted tuple. -/
theorem c8_insert_value_formatting :
    (∀ val t : String,
      containsSub (pyUpper (pyStrip t)).data "INT IDENTITY".data = true →
      formatValue val t = none) ∧
    (∀ val t : String,
      containsSub (pyUpper (pyStrip t)).data "INT IDENTITY".data = false →
      containsSub (pyUpper (pyStrip t)).data "UNIQUEIDENTIFIER".data = true →
      pyStrip val = "" →
      formatValue val t = some "NEWID()") ∧
    (∀ val t : String,
      containsSub (pyUpper (pyStrip t)).data "INT IDENTITY".data = false →
      (containsSub (pyUpper (pyStrip t)).data "UNIQUEIDENTIFIER".data &&
        (pyStrip val == "")) = false →
      val = "" →
      formatValue val t = some "NULL") ∧
    (∀ val t : String,
      containsSub (pyUpper (pyStrip t)).data "INT IDENTITY".data = false →
      (containsSub (pyUpper (pyStrip t)).data "UNIQUEIDENTIFIER".data &&
        (pyStrip val == "")) = false →
      val ≠ "" →
      isQuotedType t = true →
      formatValue val t = some (squote ++ escapeQuotes val ++ squote)) ∧
    (∀ val t : String,
      containsSub (pyUpper (pyStrip t)).data "INT IDENTITY".data = false →
      (containsSub (pyUpper (pyStrip t)).data "UNIQUEIDENTIFIER".data &&
        (pyStrip val == "")) = false →
      val ≠ "" →
      isQuotedType t = false →
      formatValue val t = some val) ∧
    (formatValue ("O" ++ squote ++ "Brien") "NVARCHAR(50)" =
      some (squote ++ "O" ++ squote ++ squote ++ "Brien" ++ squote)) ∧
    (formatInsertValues ["1", "", "x"] ["INT IDENTITY", "UNIQUEIDENTIFIER", "NVARCHAR(10)"] =
      "    (NEWID(), " ++ squote ++ "x" ++ squote ++ ")") := by
  refine ⟨?_, ?_, ?_, ?_, ?_, by decide, by decide⟩
  · intro val t h
    simp [formatValue, h]
  · intro val t h1 h2 h3
    simp [formatValue, h1, h2, h3]
  · intro val t h1 h2 h3
    subst h3
    have h2' : containsSub (pyUpper (pyStrip t)).data "UNIQUEIDENTIFIER".data = false := by
      cases hbool : containsSub (pyUpper (pyStrip t)).data "UNIQUEIDENTIFIER".data
      · rfl
      · rw [hbool, show (pyStrip "" == "") = true from by decide] at h2
        simp at h2
    simp [formatValue, h1, h2']
  · intro val t h1 h2 h3 h4
    simp [formatValue, h1, h2, h3, h4]
  · intro val t h1 h2 h3 h4
    simp [formatValue, h1, h2, h3, h4]

/-- Witness for C8: an identity column drops its value. -/
theorem c8_insert_value_formatting_witness :
    containsSub (pyUpper (pyStrip "INT IDENTITY(1,1)")).data "INT IDENTITY".data = true ∧
    formatValue "7" "INT IDENTITY(1,1)" = none :=
  ⟨by decide, c8_insert_value_formatting.1 "7" "INT IDENTITY(1,1)" (by decide)⟩

/-! ## Header-collection lemmas for `_process_json_data` -/

theorem addNewKeys_mem (keys : List String) : ∀ (acc : List String) (x : String),
    x ∈ addNewKeys acc keys ↔ x ∈ acc ∨ x ∈ keys := by
  induction keys with
  | nil => intro acc x; simp [addNewKeys]
  | cons k rest ih =>
    intro acc x
    have hstep : addNewKeys acc (k :: rest) =
        addNewKeys (if k ∈ acc then acc else acc ++ [k]) rest := rfl
    rw [hstep]
    by_cases hk : k ∈ acc
    · rw [if_pos hk, ih]
      simp only [List.mem_cons]
      constructor
      · rintro (h | h)
        · exact Or.inl h
        · exact Or.inr (Or.inr h)
      · rintro (h | rfl | h)
        · exact Or.inl h
        · exact Or.inl hk
        · exact Or.inr h
    · rw [if_neg hk, ih]
      simp only [List.mem_append, List.mem_cons, List.mem_singleton]
      tauto

theorem addNewKeys_nodup (keys : List String) : ∀ acc : List String, acc.Nodup →
    (addNewKeys acc keys).Nodup := by
  induction keys with
  | nil => intro acc h; exact h
  | cons k rest ih =>
    intro acc h
    have hstep : addNewKeys acc (k :: rest) =
        addNewKeys (if k ∈ acc then acc else acc ++ [k]) rest := rfl
    rw [hstep]
    by_cases hk : k ∈ acc
    · rw [if_pos hk]
      exact ih acc h
    · rw [if_neg hk]
      apply ih
      simp [List.nodup_append, h, hk]

theorem headersFold_mem (items : List JValue) : ∀ (acc : List String) (x : String),
    (x ∈ items.foldl (fun acc item => if item.isObj then
        addNewKeys acc ((flattenObject item "").map Prod.fst) else acc) acc ↔
      x ∈ acc ∨ ∃ item ∈ items, item.isObj = true ∧
        x ∈ (flattenObject item "").map Prod.fst) := by
  induction items with
  | nil => intro acc x; simp
  | cons it rest ih =>
    intro acc x
    rw [List.foldl_cons]
    by_cases hobj : it.isObj = true
    · rw [if_pos hobj, ih, addNewKeys_mem]
      simp only [List.mem_cons]
      constructor
      · rintro ((h | h) | ⟨item, hmem, hio, hx⟩)
        · exact Or.inl h
        · exact Or.inr ⟨it, Or.inl rfl, hobj, h⟩
        · exact Or.inr ⟨item, Or.inr hmem, hio, hx⟩
      · rintro (h | ⟨item, hmem, hio, hx⟩)
        · exact Or.inl (Or.inl h)
        · rcases hmem with rfl | hmem
          · exact Or.inl (Or.inr hx)
          · exact Or.inr ⟨item, hmem, hio, hx⟩
    · rw [if_neg hobj, ih]
      simp only [List.mem_cons]
      constructor
      · rintro (h | ⟨item, hmem, hio, hx⟩)
        · exact Or.inl h
        · exact Or.inr ⟨item, Or.inr hmem, hio, hx⟩
      · rintro (h | ⟨item, hmem, hio, hx⟩)
        · exact Or.inl h
        · rcases hmem with rfl | hmem
          · exact absurd hio hobj
          · exact Or.inr ⟨item, hmem, hio, hx⟩

theorem headersFold_nodup (items : List JValue) : ∀ acc : List String, acc.Nodup →
    (items.foldl (fun acc item => if item.isObj then
      addNewKeys acc ((flattenObject item "").map Prod.fst) else acc) acc).Nodup := by
  induction items with
  | nil => intro acc h; exact h
  | cons it rest ih =>
    intro acc h
    rw [List.foldl_cons]
    by_cases hobj : it.isObj = true
    · rw [if_pos hobj]
      exact ih _ (addNewKeys_nodup _ acc h)
    · rw [if_neg hobj]
      exact ih _ h

theorem filterMap_guard_eq_map {α β : Type} (items : List α) (p : α → Bool)
    (f : α → β) (h : ∀ a ∈ items, p a = true) :
    items.filterMap (fun a => if p a then some (f a) else none) = items.map f := by
  induction items with
  | nil => rfl
  | cons a rest ih =>
    have ha := h a (List.mem_cons_self a rest)
    simp only [List.filterMap_cons, ha, if_pos, List.map_cons]
    rw [ih (fun x hx => h x (List.mem_cons_of_mem a hx))]

/-- C7: for a JSON document whose root is a non-empty array of objects,
the headers are the union of the flattened keys of all objects in
first-seen order (with no duplicates, and not limited to the first
object), there is exactly one row per object (each row listing the cell
for every header in order), and a key missing from an object renders the
empty string; in particular `[{"a":1},{"a":2,"b":3}]` yields headers
`["a","b"]` and rows `["1",""]`, `["2","3"]`. -/
theorem headersFold_eq_firstSeen (items : List JValue)
    (hobj : ∀ item ∈ items, item.isObj = true) :
    items.foldl (fun acc item => if item.isObj then
        addNewKeys acc ((flattenObject item "").map Prod.fst) else acc) [] =
      specFirstSeenHeaders
        (items.map (fun item => (flattenObject item "").map Prod.fst)) := by
  have aux : ∀ (its : List JValue) (acc : List String),
      (∀ item ∈ its, item.isObj = true) →
      its.foldl (fun acc item => if item.isObj then
          addNewKeys acc ((flattenObject item "").map Prod.fst) else acc) acc =
        ((its.map (fun item => (flattenObject item "").map Prod.fst)).flatten).foldl
          (fun acc k => if k ∈ acc then acc else acc ++ [k]) acc := by
    intro its
    induction its with
    | nil => intro acc h; simp
    | cons it rest ih =>
      intro acc h
      rw [List.foldl_cons, if_pos (h it (List.mem_cons_self it rest)),
        List.map_cons, List.flatten_cons, List.foldl_append]
      have hstep : addNewKeys acc ((flattenObject it "").map Prod.fst) =
          ((flattenObject it "").map Prod.fst).foldl
            (fun acc k => if k ∈ acc then acc else acc ++ [k]) acc := rfl
      rw [hstep]
      exact ih _ (fun x hx => h x (List.mem_cons_of_mem it hx))
  unfold specFirstSeenHeaders
  exact aux items [] hobj

/-- C7: for a JSON document whose root is a non-empty array of objects,
the headers are the union of the flattened keys of all objects in
first-seen order (with no duplicates, and not limited to the first
object), there is exactly one row per object (each row listing the cell
for every header in order), and a key missing from an object renders the
empty string; in particular `[{"a":1},{"a":2,"b":3}]` yields headers
`["a","b"]` and rows `["1",""]`, `["2","3"]`.  The last two conjuncts
pin the order: the header list equals the spec-side first-seen scan of
the key stream, and `[{"b":1},{"a":2}]` yields headers `["b","a"]` —
first-seen, not alphabetical. -/
theorem c7_json_array_of_objects (items : List JValue) (hne : items ≠ [])
    (hobj : ∀ item ∈ items, item.isObj = true) :
    ((processJsonData (.jarr items)).2.length = items.length) ∧
    ((processJsonData (.jarr items)).2 =
      items.map (fun item =>
        (processJsonData (.jarr items)).1.map (cellOf (flattenObject item "")))) ∧
    (∀ x : String, x ∈ (processJsonData (.jarr items)).1 ↔
      ∃ item ∈ items, x ∈ (flattenObject item "").map Prod.fst) ∧
    ((processJsonData (.jarr items)).1.Nodup) ∧
    (∀ (flat : List (String × JValue)) (hd : String), flat.lookup hd = none →
      cellOf flat hd = "") ∧
    (processJsonData (.jarr [.jobj [("a", .jint 1)], .jobj [("a", .jint 2), ("b", .jint 3)]]) =
      (["a", "b"], [["1", ""], ["2", "3"]])) ∧
    ((processJsonData (.jarr items)).1 =
      specFirstSeenHeaders
        (items.map (fun item => (flattenObject item "").map Prod.fst))) ∧
    (processJsonData (.jarr [.jobj [("b", .jint 1)], .jobj [("a", .jint 2)]]) =
      (["b", "a"], [["1", ""], ["", "2"]])) := by
  cases items with
  | nil => exact absurd rfl hne
  | cons first rest =>
    have hf : first.isObj = true := hobj first (List.mem_cons_self first rest)
    have hPJD : processJsonData (.jarr (first :: rest)) =
        ((first :: rest).foldl (fun acc item => if item.isObj then
            addNewKeys acc ((flattenObject item "").map Prod.fst) else acc) [],
          (first :: rest).filterMap (fun item =>
            if item.isObj then some (((first :: rest).foldl
              (fun acc item => if item.isObj then
                addNewKeys acc ((flattenObject item "").map Prod.fst) else acc) []).map
              (cellOf (flattenObject item ""))) else none)) := by
      simp only [processJsonData]
      rw [if_neg (by simp [hf])]
    rw [hPJD]
    have hrows := filterMap_guard_eq_map (first :: rest) JValue.isObj
      (fun item => ((first :: rest).foldl (fun acc item => if item.isObj then
        addNewKeys acc ((flattenObject item "").map Prod.fst) else acc) []).map
        (cellOf (flattenObject item ""))) hobj
    refine ⟨?_, ?_, ?_, ?_, ?_, ?_, ?_, ?_⟩
    · simp only [hrows, List.length_map]
    · simp only [hrows]
    · intro x
      rw [headersFold_mem]
      simp only [List.not_mem_nil, false_or]
      constructor
      · rintro ⟨item, hmem, _, hx⟩
        exact ⟨item, hmem, hx⟩
      · rintro ⟨item, hmem, hx⟩
        exact ⟨item, hmem, hobj item hmem, hx⟩
    · exact headersFold_nodup (first :: rest) [] List.nodup_nil
    · intro flat hd h
      simp [cellOf, h]
    · simp [processJsonData, flattenObject, flattenFields, dictFromList, addNewKeys,
        cellOf, pyStr, JValue.isObj, List.lookup]
      decide
    · exact headersFold_eq_firstSeen (first :: rest) hobj
    · simp [processJsonData, flattenObject, flattenFields, dictFromList, addNewKeys,
        cellOf, pyStr, JValue.isObj, List.lookup]
      decide

/-- Witness for C7 at the two-object array `[{"a":1},{"a":2,"b":3}]`. -/
theorem c7_json_array_of_objects_witness :
    ([JValue.jobj [("a", .jint 1)], JValue.jobj [("a", .jint 2), ("b", .jint 3)]] ≠
      ([] : List JValue)) ∧
    ((processJsonData (.jarr [JValue.jobj [("a", .jint 1)],
        JValue.jobj [("a", .jint 2), ("b", .jint 3)]])).2.length =
      ([JValue.jobj [("a", .jint 1)], JValue.jobj [("a", .jint 2), ("b", .jint 3)]]).length) :=
  ⟨by simp,
    (c7_json_array_of_objects
      [JValue.jobj [("a", .jint 1)], JValue.jobj [("a", .jint 2), ("b", .jint 3)]]
      (by simp) (by intro item hitem; fin_cases hitem <;> rfl)).1⟩

/-- C10: flattening a JSON node maps a nested object field to the dotted
key path `parent.child`; an element of an array of objects recurses under
the indexed key path `parent[index].child` with `index` the element's
position; an array of non-objects collapses to a single entry whose
value joins the elements' string forms with `", "`; and key order is
first-appearance order within each object, never alphabetical (witnessed
by `{"b":1,"a":2}` flattening to `[("b",…),("a",…)]`). -/
theorem c10_flatten_paths :
    (∀ (parent k : String) (fields rest : List (String × JValue)), parent ≠ "" →
      flattenFields ((k, .jobj fields) :: rest) parent =
        flattenObject (.jobj fields) (parent ++ "." ++ k) ++ flattenFields rest parent) ∧
    (∀ (parent k : String) (first : JValue) (arrRest : List JValue)
        (rest : List (String × JValue)), parent ≠ "" → first.isObj = true →
      flattenFields ((k, .jarr (first :: arrRest)) :: rest) parent =
        flattenArray (first :: arrRest) (parent ++ "." ++ k) 0 ++
          flattenFields rest parent) ∧
    (∀ (item : JValue) (arrRest : List JValue) (key : String) (i : Nat),
      flattenArray (item :: arrRest) key i =
        flattenObject item (key ++ "[" ++ toString i ++ "]") ++
          flattenArray arrRest key (i + 1)) ∧
    (∀ (parent k : String) (v : JValue) (t : List JValue)
        (rest : List (String × JValue)), parent ≠ "" → v.isObj = false →
      flattenFields ((k, .jarr (v :: t)) :: rest) parent =
        (parent ++ "." ++ k, .jstr (String.intercalate ", " ((v :: t).map pyStr))) ::
          flattenFields rest parent) ∧
    (∀ (parent k : String) (rest : List (String × JValue)), parent ≠ "" →
      flattenFields ((k, .jarr []) :: rest) parent =
        (parent ++ "." ++ k, .jstr "") :: flattenFields rest parent) ∧
    (flattenObject (.jobj [("b", .jint 1), ("a", .jint 2)]) "" =
      [("b", .jint 1), ("a", .jint 2)]) ∧
    (flattenObject (.jobj [("p", .jarr [.jobj [("c", .jint 1)],
        .jobj [("c", .jint 2)]])]) "" =
      [("p[0].c", .jint 1), ("p[1].c", .jint 2)]) ∧
    (flattenObject (.jobj [("t", .jarr [.jint 1, .jint 2])]) "" =
      [("t", .jstr "1, 2")]) := by
  refine ⟨?_, ?_, ?_, ?_, ?_, ?_, ?_, ?_⟩
  · intro parent k fields rest hp
    simp [flattenFields, hp]
  · intro parent k first arrRest rest hp hobj
    simp [flattenFields, hp, hobj]
  · intro item arrRest key i
    simp [flattenArray]
  · intro parent k v t rest hp hobj
    simp [flattenFields, hp, hobj]
  · intro parent k rest hp
    simp [flattenFields, hp]
    decide
  · simp [flattenObject, flattenFields, dictFromList]
  · have e0 : ("p[" ++ toString (0 : Nat) ++ "]" : String) = "p[0]" := rfl
    have e1 : ("p[" ++ toString (1 : Nat) ++ "]" : String) = "p[1]" := rfl
    simp [flattenObject, flattenFields, flattenArray, dictFromList, JValue.isObj, e0, e1]
  · simp [flattenObject, flattenFields, dictFromList, JValue.isObj, pyStr, pyRepr,
      pyReprList]
    decide

/-- Witness for C10: a nested object under a non-empty parent key. -/
theorem c10_flatten_paths_witness :
    ("p" : String) ≠ "" ∧
    flattenFields [("k", .jobj [("c", .jint 7)])] "p" =
      flattenObject (.jobj [("c", .jint 7)]) ("p" ++ "." ++ "k") ++
        flattenFields [] "p" :=
  ⟨by decide, c10_flatten_paths.1 "p" "k" [("c", .jint 7)] [] (by decide)⟩



end SqlBuilder
